import Mathlib

/-!
Verification of the anchorboost objective library.

The development shallowly embeds the numeric core of the repository over the
real numbers: score/label vectors are functions `Fin n → ℝ`, multi-class
score matrices are `Fin n → Fin k → ℝ`, and numpy's column-major
(`order="F"`) flatten/reshape pair is embedded explicitly.  The projection
onto the anchor's column space (`AnchorMixin._proj`, whose file is not among
the sources) is modelled from the spec as the orthogonal projection in
`EuclideanSpace ℝ (Fin n)`.
-/

set_option maxHeartbeats 1000000

noncomputable section

/-! ## Column-major flattening (numpy `order="F"`) -/

/-- Column-major flat position of entry (example `i`, class `c`) of an
`n × k` matrix, as used by numpy's `flatten("F")`. -/
def colIdx {n k : ℕ} (i : Fin n) (c : Fin k) : Fin (n * k) :=
  ⟨i.1 + n * c.1, by
    have hik : i.1 + n * c.1 < n * (c.1 + 1) := by
      rw [Nat.mul_succ]; omega
    exact lt_of_lt_of_le hik (Nat.mul_le_mul_left n c.2)⟩

/-- Example (row) index of a column-major flat position. -/
def exIdx {n k : ℕ} (q : Fin (n * k)) : Fin n :=
  ⟨q.1 % n, by
    rcases Nat.eq_zero_or_pos n with h | h
    · exact absurd q.2 (by simp [h])
    · exact Nat.mod_lt _ h⟩

/-- Class (column) index of a column-major flat position. -/
def clsIdx {n k : ℕ} (q : Fin (n * k)) : Fin k :=
  ⟨q.1 / n, by
    rcases Nat.eq_zero_or_pos n with h | h
    · exact absurd q.2 (by simp [h])
    · have hq : q.1 < k * n := by rw [mul_comm k n]; exact q.2
      exact (Nat.div_lt_iff_lt_mul h).2 hq⟩

/-- Embedding of numpy `M.flatten("F")` for an `n × k` matrix. -/
def flattenF {n k : ℕ} (M : Fin n → Fin k → ℝ) : Fin (n * k) → ℝ :=
  fun q => M (exIdx q) (clsIdx q)

/-- Embedding of numpy `f.reshape((-1, k), order="F")`. -/
def toMat {n k : ℕ} (f : Fin (n * k) → ℝ) : Fin n → Fin k → ℝ :=
  fun i c => f (colIdx i c)

theorem exIdx_colIdx {n k : ℕ} (i : Fin n) (c : Fin k) : exIdx (colIdx i c) = i := by
  apply Fin.ext
  show (i.1 + n * c.1) % n = i.1
  rw [Nat.add_mul_mod_self_left, Nat.mod_eq_of_lt i.2]

theorem clsIdx_colIdx {n k : ℕ} (i : Fin n) (c : Fin k) : clsIdx (colIdx i c) = c := by
  apply Fin.ext
  show (i.1 + n * c.1) / n = c.1
  have hn : 0 < n := lt_of_le_of_lt (Nat.zero_le _) i.2
  rw [Nat.add_mul_div_left _ _ hn, Nat.div_eq_of_lt i.2, Nat.zero_add]

theorem colIdx_exIdx_clsIdx {n k : ℕ} (q : Fin (n * k)) :
    colIdx (exIdx q) (clsIdx q) = q := by
  apply Fin.ext
  show q.1 % n + n * (q.1 / n) = q.1
  exact Nat.mod_add_div _ _

theorem toMat_flattenF {n k : ℕ} (M : Fin n → Fin k → ℝ) : toMat (flattenF M) = M := by
  funext i c
  show M (exIdx (colIdx i c)) (clsIdx (colIdx i c)) = M i c
  rw [exIdx_colIdx, clsIdx_colIdx]

theorem flattenF_apply {n k : ℕ} (M : Fin n → Fin k → ℝ) (q : Fin (n * k)) :
    flattenF M q = M (exIdx q) (clsIdx q) := rfl

theorem colIdx_eq_iff {n k : ℕ} (i : Fin n) (c : Fin k) (q : Fin (n * k)) :
    colIdx i c = q ↔ i = exIdx q ∧ c = clsIdx q := by
  constructor
  · rintro rfl
    exact ⟨(exIdx_colIdx i c).symm, (clsIdx_colIdx i c).symm⟩
  · rintro ⟨rfl, rfl⟩
    exact colIdx_exIdx_clsIdx q

theorem toMat_update {n k : ℕ} (f : Fin (n * k) → ℝ) (q : Fin (n * k)) (t : ℝ) (i : Fin n) :
    toMat (Function.update f q t) i =
      if i = exIdx q then Function.update (toMat f i) (clsIdx q) t else toMat f i := by
  funext c
  by_cases hi : i = exIdx q
  · rw [if_pos hi]
    by_cases hc : c = clsIdx q
    · have hq : colIdx i c = q := (colIdx_eq_iff i c q).2 ⟨hi, hc⟩
      show Function.update f q t (colIdx i c) = _
      rw [hq, hc, Function.update_same, Function.update_same]
    · have hq : colIdx i c ≠ q := fun h => hc ((colIdx_eq_iff i c q).1 h).2
      show Function.update f q t (colIdx i c) = _
      rw [Function.update_noteq hq, Function.update_noteq hc]
      rfl
  · rw [if_neg hi]
    have hq : colIdx i c ≠ q := fun h => hi ((colIdx_eq_iff i c q).1 h).1
    show Function.update f q t (colIdx i c) = f (colIdx i c)
    rw [Function.update_noteq hq]

/-! ## The anchor projection operator

Modelled from the spec: the file `anchor_mixins.py` defining `AnchorMixin._proj`
is not among the sources.  Per spec §4.1 it is the ordinary-least-squares fit of
the residual on the anchor, i.e. the orthogonal projection onto the column
space of the anchor matrix (minimum-norm / rank-deficiency tolerant), applied
column-wise to matrix-shaped residuals. -/

namespace AnchorMixin

/-- Column space of the anchor matrix `A`, as a subspace of `EuclideanSpace`. -/
def spanCols {n m : ℕ} (A : Matrix (Fin n) (Fin m) ℝ) :
    Submodule ℝ (EuclideanSpace ℝ (Fin n)) :=
  Submodule.span ℝ (Set.range fun j => (fun i => A i j : EuclideanSpace ℝ (Fin n)))

/-- Modelled from the spec: `AnchorMixin._proj` (source file absent), the
ordinary-least-squares orthogonal projection of a residual vector onto the
column space of the anchor matrix. -/
def proj {n m : ℕ} (A : Matrix (Fin n) (Fin m) ℝ) (r : Fin n → ℝ) : Fin n → ℝ :=
  (orthogonalProjection (spanCols A) r : EuclideanSpace ℝ (Fin n))

/-- Modelled from the spec: `_proj` applied to an `n × k` residual matrix
operates column-wise. -/
def projCols {n m k : ℕ} (A : Matrix (Fin n) (Fin m) ℝ) (R : Fin n → Fin k → ℝ) :
    Fin n → Fin k → ℝ :=
  fun i c => proj A (fun l => R l c) i

/-- A canonical basis vector of `Fin n → ℝ`. -/
def basisV {n : ℕ} (j : Fin n) : Fin n → ℝ := fun l => if l = j then 1 else 0

theorem inner_euclidean {n : ℕ} (x y : EuclideanSpace ℝ (Fin n)) :
    (inner x y : ℝ) = ∑ l, x l * y l := by
  simp [PiLp.inner_apply, RCLike.inner_apply, starRingEnd_apply]

theorem sum_basisV_mul {n : ℕ} (j : Fin n) (v : Fin n → ℝ) :
    ∑ l, basisV j l * v l = v j := by
  rw [Finset.sum_eq_single j]
  · simp [basisV]
  · intro b _ hb
    simp [basisV, hb]
  · intro h
    exact absurd (Finset.mem_univ j) h

theorem proj_mem {n m : ℕ} (A : Matrix (Fin n) (Fin m) ℝ) (r : Fin n → ℝ) :
    (proj A r : EuclideanSpace ℝ (Fin n)) ∈ spanCols A :=
  (orthogonalProjection (spanCols A) r).2

/-- Self-adjointness of the projection, in coordinates. -/
theorem sum_proj_mul {n m : ℕ} (A : Matrix (Fin n) (Fin m) ℝ) (r s : Fin n → ℝ) :
    ∑ j, proj A r j * s j = ∑ j, r j * proj A s j := by
  have h := inner_orthogonalProjection_left_eq_right (spanCols A)
    (r : EuclideanSpace ℝ (Fin n)) (s : EuclideanSpace ℝ (Fin n))
  rw [inner_euclidean, inner_euclidean] at h
  exact h

/-- Idempotence of the projection. -/
theorem proj_idem {n m : ℕ} (A : Matrix (Fin n) (Fin m) ℝ) (r : Fin n → ℝ) :
    proj A (proj A r) = proj A r := by
  have h := orthogonalProjection_mem_subspace_eq_self
    (K := spanCols A) ⟨(proj A r : EuclideanSpace ℝ (Fin n)), proj_mem A r⟩
  show (orthogonalProjection (spanCols A) (proj A r) : EuclideanSpace ℝ (Fin n)) = proj A r
  rw [h]

/-- Matrix representation of the projection: each coordinate is a fixed
linear combination of the input coordinates. -/
theorem proj_apply_eq_sum {n m : ℕ} (A : Matrix (Fin n) (Fin m) ℝ) (r : Fin n → ℝ)
    (j : Fin n) :
    proj A r j = ∑ l, proj A (basisV j) l * r l := by
  have h2 := inner_orthogonalProjection_left_eq_right (spanCols A)
    (basisV j : EuclideanSpace ℝ (Fin n)) (r : EuclideanSpace ℝ (Fin n))
  rw [inner_euclidean, inner_euclidean] at h2
  calc proj A r j = ∑ l, basisV j l * proj A r l := (sum_basisV_mul j (proj A r)).symm
    _ = ∑ l, proj A (basisV j) l * r l := h2.symm

/-- Moving one projection across the inner product and absorbing it. -/
theorem sum_proj_mul_proj {n m : ℕ} (A : Matrix (Fin n) (Fin m) ℝ) (r s : Fin n → ℝ) :
    ∑ j, proj A r j * proj A s j = ∑ j, proj A r j * s j := by
  have h := sum_proj_mul A s (proj A r)
  rw [proj_idem] at h
  calc ∑ j, proj A r j * proj A s j
      = ∑ j, proj A s j * proj A r j := Finset.sum_congr rfl fun j _ => mul_comm _ _
    _ = ∑ j, s j * proj A r j := h
    _ = ∑ j, proj A r j * s j := Finset.sum_congr rfl fun j _ => mul_comm _ _

/-- Coordinates of the projection are differentiable along any differentiable
curve of residuals, with the projection of the derivative as derivative. -/
theorem hasDerivAt_proj {n m : ℕ} (A : Matrix (Fin n) (Fin m) ℝ)
    (r : ℝ → Fin n → ℝ) (r' : Fin n → ℝ) (t : ℝ) (j : Fin n)
    (h : ∀ l, HasDerivAt (fun s => r s l) (r' l) t) :
    HasDerivAt (fun s => proj A (r s) j) (proj A r' j) t := by
  have hfun : (fun s => proj A (r s) j) =
      fun s => ∑ l, proj A (basisV j) l * r s l := by
    funext s
    exact proj_apply_eq_sum A (r s) j
  rw [hfun, proj_apply_eq_sum A r' j]
  exact HasDerivAt.sum fun l _ => (h l).const_mul (proj A (basisV j) l)

end AnchorMixin

/-! ## Mean centering (numpy `x -= x.mean()`) -/

/-- Subtracting the mean across examples (`x - x.mean()`). -/
def centerMean {n : ℕ} (v : Fin n → ℝ) : Fin n → ℝ := fun i => v i - (∑ l, v l) / n

/-! ## Two-class base family (`classification_mixins.ClassificationMixin`) -/

namespace ClassificationMixin

/-- `predictions`: the logistic sigmoid of the scores, `1 / (1 + exp(-f))`. -/
def predictions {n : ℕ} (f : Fin n → ℝ) : Fin n → ℝ :=
  fun i => 1 / (1 + Real.exp (-f i))

/-- `loss`: two-class negative log-likelihood, `log(1 + exp((-2y+1)·f))`. -/
def loss {n : ℕ} (y f : Fin n → ℝ) : Fin n → ℝ :=
  fun i => Real.log (1 + Real.exp ((-2 * y i + 1) * f i))

/-- `grad`: `predictions(f) - y`. -/
def grad {n : ℕ} (y f : Fin n → ℝ) : Fin n → ℝ :=
  fun i => predictions f i - y i

/-- `hess`: `predictions * (1 - predictions)`. -/
def hess {n : ℕ} (f : Fin n → ℝ) : Fin n → ℝ :=
  fun i => predictions f i * (1 - predictions f i)

/-- `init_score`: constant vector `log(p / (1 - p))` with `p` the empirical
positive rate `sum(y) / len(y)`. -/
def init_score {n : ℕ} (y : Fin n → ℝ) : Fin n → ℝ :=
  fun _ => Real.log (((∑ i, y i) / n) / (1 - (∑ i, y i) / n))

end ClassificationMixin

/-! ## Multi-class base family (`classification_mixins.MultiClassificationMixin`)

Labels are embedded as `Fin n → Fin k` (the data-model precondition of integer
labels in `{0, …, k-1}`); a separate `ℤ`-labelled checked embedding below
models numpy's actual index-bounds behaviour. -/

namespace MultiClassificationMixin

/-- `self.factor = (n_classes - 1) / n_classes`. -/
def factor (k : ℕ) : ℝ := ((k : ℝ) - 1) / k

/-- Row-wise maximum, `np.max(f, axis=1)` for one row. -/
def rowMax {k : ℕ} [NeZero k] (g : Fin k → ℝ) : ℝ :=
  Finset.univ.sup' ⟨⟨0, Nat.pos_of_ne_zero (NeZero.ne k)⟩, Finset.mem_univ _⟩ g

/-- The overflow-normalized scores: each row of `f.reshape((-1,k),order="F")`
with its row maximum subtracted. -/
def shifted {n k : ℕ} [NeZero k] (f : Fin (n * k) → ℝ) : Fin n → Fin k → ℝ :=
  fun i c => toMat f i c - rowMax (toMat f i)

/-- `predictions`: softmax of the max-shifted scores, one row per example. -/
def predictions {n k : ℕ} [NeZero k] (f : Fin (n * k) → ℝ) : Fin n → Fin k → ℝ :=
  fun i c => Real.exp (shifted f i c) / ∑ c', Real.exp (shifted f i c')

/-- `loss`: per-example multi-class negative log-likelihood computed on the
max-shifted scores, `-f[i, y_i] + log(sum_c exp f[i, c])`. -/
def loss {n k : ℕ} [NeZero k] (y : Fin n → Fin k) (f : Fin (n * k) → ℝ) : Fin n → ℝ :=
  fun i => -(shifted f i (y i)) + Real.log (∑ c, Real.exp (shifted f i c))

/-- `grad`: predictions with 1 subtracted at each example's true class,
re-flattened column-major. -/
def grad {n k : ℕ} [NeZero k] (y : Fin n → Fin k) (f : Fin (n * k) → ℝ) :
    Fin (n * k) → ℝ :=
  flattenF (fun i c => predictions f i c - if c = y i then 1 else 0)

/-- `hess`: `1/factor * predictions * (1 - predictions)`, flattened column-major. -/
def hess {n k : ℕ} [NeZero k] (f : Fin (n * k) → ℝ) : Fin (n * k) → ℝ :=
  fun q => 1 / factor k * flattenF (predictions f) q * (1 - flattenF (predictions f) q)

end MultiClassificationMixin

/-! ## Regression base family

Modelled from the spec: `regression_mixins.py` is not among the sources.
Spec §4.3: `predictions(f) = f`, squared-error loss `(y-f)²`, residual `y-f`;
by the §3 invariant the gradient is the exact derivative of the loss and the
Hessian diagonal is that of the base loss. -/

namespace RegressionMixin

/-- Modelled from the spec: squared-error loss `(y - f)²`. -/
def loss {n : ℕ} (y f : Fin n → ℝ) : Fin n → ℝ := fun i => (y i - f i) ^ 2

/-- Modelled from the spec: gradient of the squared-error loss, `-2(y - f)`. -/
def grad {n : ℕ} (y f : Fin n → ℝ) : Fin n → ℝ := fun i => -2 * (y i - f i)

/-- Modelled from the spec: Hessian diagonal of the squared-error loss. -/
def hess {n : ℕ} (y f : Fin n → ℝ) : Fin n → ℝ := fun _ => 2

end RegressionMixin

/-! ## Anchor objective variants (`anchor_objectives.py`) -/

open AnchorMixin

namespace AnchorKookClassificationObjective

/-- `residuals`: `predictions(f) - y`, mean-centered when `center_residuals`. -/
def residuals {n : ℕ} (cr : Bool) (y f : Fin n → ℝ) : Fin n → ℝ :=
  if cr then centerMean (fun i => ClassificationMixin.predictions f i - y i)
  else fun i => ClassificationMixin.predictions f i - y i

/-- `loss`: base loss plus `(γ-1) · proj(anchor, residuals)²`. -/
def loss {n m : ℕ} (γ : ℝ) (cr : Bool) (A : Matrix (Fin n) (Fin m) ℝ)
    (y f : Fin n → ℝ) : Fin n → ℝ :=
  fun i => ClassificationMixin.loss y f i
    + (γ - 1) * (proj A (residuals cr y f) i) ^ 2

/-- `grad`: base gradient plus
`2(γ-1) · proj_residuals · predictions · (1 - predictions)`, with the
projected residuals re-centered when `center_residuals`. -/
def grad {n m : ℕ} (γ : ℝ) (cr : Bool) (A : Matrix (Fin n) (Fin m) ℝ)
    (y f : Fin n → ℝ) : Fin n → ℝ :=
  fun i => ClassificationMixin.grad y f i
    + 2 * (γ - 1) * (if cr then centerMean (proj A (residuals cr y f))
                     else proj A (residuals cr y f)) i
      * ClassificationMixin.predictions f i * (1 - ClassificationMixin.predictions f i)

/-- `LGBMMixin.objective`: `(grad, hess)`; `hess` resolves to the base family's. -/
def objective {n m : ℕ} (γ : ℝ) (cr : Bool) (A : Matrix (Fin n) (Fin m) ℝ)
    (y f : Fin n → ℝ) : (Fin n → ℝ) × (Fin n → ℝ) :=
  (grad γ cr A y f, ClassificationMixin.hess f)

end AnchorKookClassificationObjective

namespace AnchorKookMultiClassificationObjective

/-- `residuals` before flattening: predictions with 1 subtracted at the true
class, optionally centered per class (across examples, `axis=0`). -/
def resMat {n k : ℕ} [NeZero k] (cr : Bool) (y : Fin n → Fin k)
    (f : Fin (n * k) → ℝ) : Fin n → Fin k → ℝ :=
  if cr then
    fun i c => (MultiClassificationMixin.predictions f i c - if c = y i then 1 else 0)
      - (∑ l, (MultiClassificationMixin.predictions f l c - if c = y l then 1 else 0)) / n
  else fun i c => MultiClassificationMixin.predictions f i c - if c = y i then 1 else 0

/-- `residuals`: the residual matrix flattened column-major. -/
def residuals {n k : ℕ} [NeZero k] (cr : Bool) (y : Fin n → Fin k)
    (f : Fin (n * k) → ℝ) : Fin (n * k) → ℝ :=
  flattenF (resMat cr y f)

/-- `loss`: base loss plus `factor · (γ-1) · sum_c proj(anchor, residuals)²`
(residuals reshaped column-major, projection column-wise). -/
def loss {n k m : ℕ} [NeZero k] (γ : ℝ) (cr : Bool) (A : Matrix (Fin n) (Fin m) ℝ)
    (y : Fin n → Fin k) (f : Fin (n * k) → ℝ) : Fin n → ℝ :=
  fun i => MultiClassificationMixin.loss y f i
    + MultiClassificationMixin.factor k * (γ - 1)
      * ∑ c, (projCols A (toMat (residuals cr y f)) i c) ^ 2

/-- `grad`: base gradient plus the flattened anchor term
`2 · factor · (γ-1) · predictions · proj_residuals`, where the projected
residuals are first optionally re-centered per class and then have their
prediction-weighted row sums subtracted. -/
def grad {n k m : ℕ} [NeZero k] (γ : ℝ) (cr : Bool) (A : Matrix (Fin n) (Fin m) ℝ)
    (y : Fin n → Fin k) (f : Fin (n * k) → ℝ) : Fin (n * k) → ℝ :=
  let Q := projCols A (toMat (residuals cr y f))
  let Q1 := if cr then fun (i : Fin n) (c : Fin k) => Q i c - (∑ l, Q l c) / n else Q
  let Q2 := fun (i : Fin n) (c : Fin k) =>
    Q1 i c - ∑ c', Q1 i c' * MultiClassificationMixin.predictions f i c'
  fun q => MultiClassificationMixin.grad y f q
    + flattenF (fun i c => 2 * MultiClassificationMixin.factor k * (γ - 1)
        * MultiClassificationMixin.predictions f i c * Q2 i c) q

/-- `LGBMMixin.objective`: `(grad, hess)`; `hess` resolves to the base family's. -/
def objective {n k m : ℕ} [NeZero k] (γ : ℝ) (cr : Bool) (A : Matrix (Fin n) (Fin m) ℝ)
    (y : Fin n → Fin k) (f : Fin (n * k) → ℝ) :
    (Fin (n * k) → ℝ) × (Fin (n * k) → ℝ) :=
  (grad γ cr A y f, MultiClassificationMixin.hess f)

end AnchorKookMultiClassificationObjective

namespace AnchorLiuClassificationObjective

/-- `residuals`: with `y' = 2y - 1`, the smoothed margin residual
`-f + y'·(1 + exp(-y'·f))·log1p(exp(y'·f))`. -/
def residuals {n : ℕ} (y f : Fin n → ℝ) : Fin n → ℝ :=
  fun i => -f i + (2 * y i - 1) * (1 + Real.exp (-((2 * y i - 1) * f i)))
    * Real.log (1 + Real.exp ((2 * y i - 1) * f i))

/-- `loss`: short-circuits to the base loss at γ = 1, otherwise base loss plus
`(γ-1) · proj(anchor, residuals)²`. -/
def loss {n m : ℕ} (γ : ℝ) (A : Matrix (Fin n) (Fin m) ℝ) (y f : Fin n → ℝ) :
    Fin n → ℝ :=
  if γ = 1 then ClassificationMixin.loss y f
  else fun i => ClassificationMixin.loss y f i
    + (γ - 1) * (proj A (residuals y f) i) ^ 2

/-- `grad`: short-circuits to the base gradient at γ = 1, otherwise base
gradient minus `2(γ-1) · proj_residuals · exp(-y'·f) · log1p(exp(y'·f))`. -/
def grad {n m : ℕ} (γ : ℝ) (A : Matrix (Fin n) (Fin m) ℝ) (y f : Fin n → ℝ) :
    Fin n → ℝ :=
  if γ = 1 then ClassificationMixin.grad y f
  else fun i => ClassificationMixin.grad y f i
    - 2 * (γ - 1) * proj A (residuals y f) i
      * Real.exp (-((2 * y i - 1) * f i)) * Real.log (1 + Real.exp ((2 * y i - 1) * f i))

/-- `LGBMMixin.objective`: `(grad, hess)`; `hess` resolves to the base family's. -/
def objective {n m : ℕ} (γ : ℝ) (A : Matrix (Fin n) (Fin m) ℝ) (y f : Fin n → ℝ) :
    (Fin n → ℝ) × (Fin n → ℝ) :=
  (grad γ A y f, ClassificationMixin.hess f)

end AnchorLiuClassificationObjective

namespace AnchorRegressionObjective

/-- `residuals`: `y - f`. -/
def residuals {n : ℕ} (y f : Fin n → ℝ) : Fin n → ℝ := fun i => y i - f i

/-- `loss`: short-circuits to the base loss at γ = 1, otherwise
`(base loss + (γ-1)·proj(anchor, residuals)²) / max(γ, 1)`. -/
def loss {n m : ℕ} (γ : ℝ) (A : Matrix (Fin n) (Fin m) ℝ) (y f : Fin n → ℝ) :
    Fin n → ℝ :=
  if γ = 1 then RegressionMixin.loss y f
  else fun i => (RegressionMixin.loss y f i
    + (γ - 1) * (proj A (residuals y f) i) ^ 2) / max γ 1

/-- `grad`: short-circuits to the base gradient at γ = 1, otherwise
`(base grad - 2(γ-1)·proj_residuals) / max(γ, 1)`. -/
def grad {n m : ℕ} (γ : ℝ) (A : Matrix (Fin n) (Fin m) ℝ) (y f : Fin n → ℝ) :
    Fin n → ℝ :=
  if γ = 1 then RegressionMixin.grad y f
  else fun i => (RegressionMixin.grad y f i
    - 2 * (γ - 1) * proj A (residuals y f) i) / max γ 1

/-- `LGBMMixin.objective`: `(grad, hess)`; `hess` resolves to the base family's. -/
def objective {n m : ℕ} (γ : ℝ) (A : Matrix (Fin n) (Fin m) ℝ) (y f : Fin n → ℝ) :
    (Fin n → ℝ) × (Fin n → ℝ) :=
  (grad γ A y f, RegressionMixin.hess y f)

end AnchorRegressionObjective

namespace AnchorHSICRegressionObjective

/-- Modelled from the spec: a deterministic random generator in the style of
`np.random.RandomState`.  `newRng seed` builds a fresh generator state from a
seed; `normal` and `uniform` draw an `n_components`-vector of standard-normal
resp. uniform-on-`[0,1)` variates and advance the state.  The numpy generator
itself is outside the sources, so its draw functions are left abstract. -/
structure RNG (S : Type) (K : ℕ) where
  newRng : ℕ → S
  normal : S → (Fin K → ℝ) × S
  uniform : S → (Fin K → ℝ) × S

/-- The random weights and offsets of `_fourier_residuals`: a fresh generator
is created from `random_fourier_features_seed`, `n_components` normal weights
are drawn, then `n_components` uniforms scaled by `2π` as offsets. -/
def draws {S : Type} {K : ℕ} (g : RNG S K) (seed : ℕ) : (Fin K → ℝ) × (Fin K → ℝ) :=
  let s0 := g.newRng seed
  let ws := g.normal s0
  let us := g.uniform ws.2
  (ws.1, fun c => us.1 c * (2 * Real.pi))

/-- `_fourier_residuals`: features `cos(residual·weight + offset)·sqrt(2/K)`
and their residual-derivatives `-sin(residual·weight + offset)·weight·sqrt(2/K)`,
an `n × n_components` matrix each, with `residual = y - f`. -/
def fourierResiduals {S : Type} {K n : ℕ} (g : RNG S K) (seed : ℕ)
    (y f : Fin n → ℝ) : (Fin n → Fin K → ℝ) × (Fin n → Fin K → ℝ) :=
  (fun i c => Real.cos ((y i - f i) * (draws g seed).1 c + (draws g seed).2 c)
      * Real.sqrt (2 / K),
   fun i c => -Real.sin ((y i - f i) * (draws g seed).1 c + (draws g seed).2 c)
      * (draws g seed).1 c * Real.sqrt (2 / K))

/-- One invocation of `_fourier_residuals` as a state transformer over an
ambient generator state: the call builds its own generator from the stored
seed, so the ambient state is neither read nor advanced. -/
def fourierCall {S T : Type} {K n : ℕ} (g : RNG S K) (seed : ℕ)
    (y f : Fin n → ℝ) (amb : T) :
    ((Fin n → Fin K → ℝ) × (Fin n → Fin K → ℝ)) × T :=
  (fourierResiduals g seed y f, amb)

/-- `residuals`: `y - f`. -/
def residuals {n : ℕ} (y f : Fin n → ℝ) : Fin n → ℝ := fun i => y i - f i

/-- `loss`: short-circuits to the base loss at γ = 1, otherwise
`(base loss + (γ-1)·sum_c proj(anchor, fourier_residuals)²) / max(γ, 1)`. -/
def loss {S : Type} {K n m : ℕ} (g : RNG S K) (seed : ℕ) (γ : ℝ)
    (A : Matrix (Fin n) (Fin m) ℝ) (y f : Fin n → ℝ) : Fin n → ℝ :=
  if γ = 1 then RegressionMixin.loss y f
  else fun i => (RegressionMixin.loss y f i
    + (γ - 1) * ∑ c, (projCols A (fourierResiduals g seed y f).1 i c) ^ 2) / max γ 1

/-- `grad`: short-circuits to the base gradient at γ = 1, otherwise
`(base grad - 2(γ-1)·sum_c proj(anchor, fourier_residuals)·fourier_derivative)
/ max(γ, 1)`. -/
def grad {S : Type} {K n m : ℕ} (g : RNG S K) (seed : ℕ) (γ : ℝ)
    (A : Matrix (Fin n) (Fin m) ℝ) (y f : Fin n → ℝ) : Fin n → ℝ :=
  if γ = 1 then RegressionMixin.grad y f
  else fun i => (RegressionMixin.grad y f i
    - 2 * (γ - 1) * ∑ c, projCols A (fourierResiduals g seed y f).1 i c
        * (fourierResiduals g seed y f).2 i c) / max γ 1

/-- `LGBMMixin.objective`: `(grad, hess)`; `hess` resolves to the base family's. -/
def objective {S : Type} {K n m : ℕ} (g : RNG S K) (seed : ℕ) (γ : ℝ)
    (A : Matrix (Fin n) (Fin m) ℝ) (y f : Fin n → ℝ) :
    (Fin n → ℝ) × (Fin n → ℝ) :=
  (grad g seed γ A y f, RegressionMixin.hess y f)

end AnchorHSICRegressionObjective

/-! ## Multi-class `init_score` over raw label lists

`MultiClassificationMixin.init_score` works on the raw label vector: it takes
the sorted distinct values (`np.unique`), asserts that their number equals
`n_classes` and that `np.unique`'s output is sorted, and returns the log
empirical frequencies tiled across examples and flattened column-major.  The
assertion failure is embedded as `none`. -/

namespace MultiClassificationMixin

/-- Sorted distinct label values, `np.unique(y)`. -/
def uniqueVals (y : List ℕ) : List ℕ := y.toFinset.sort (· ≤ ·)

/-- Occurrence counts of the sorted distinct values (`return_counts=True`). -/
def uniqueCounts (y : List ℕ) : List ℕ := (uniqueVals y).map fun v => y.count v

/-- `init_score`: `none` models an `AssertionError`.  The two asserted
conditions are `len(unique_values) == n_classes` and sortedness of
`np.unique`'s output; the score vector is `log(counts/total)` tiled over the
`n` examples and flattened column-major (entry `q` belongs to class `q / n`). -/
def init_score (k : ℕ) (y : List ℕ) : Option (Fin (y.length * k) → ℝ) :=
  if (uniqueVals y).length = k ∧ List.Pairwise (· ≤ ·) (uniqueVals y) then
    some (fun q => Real.log
      (((uniqueCounts y).getD (clsIdx q).1 0 : ℝ) / ((uniqueCounts y).sum : ℝ)))
  else none

end MultiClassificationMixin

/-! ## Checked multi-class label indexing (numpy fancy-indexing bounds)

`_indices(y)` pairs `np.arange(n)` with `y.astype(int)`; numpy integer
fancy-indexing accepts an index `z` into `k` columns iff `-k ≤ z < k`
(negative values wrap).  The checked embeddings below return `none` exactly
when some label index is rejected (an `IndexError`). -/

namespace MultiClassificationMixin

/-- Numpy integer column indexing with wrap-around: defined iff `-k ≤ z < k`. -/
def npIndex (k : ℕ) (z : ℤ) : Option (Fin k) :=
  if h : -(k : ℤ) ≤ z ∧ z < k then
    some ⟨(if z < 0 then z + k else z).toNat, by
      rcases h with ⟨h1, h2⟩
      split <;> omega⟩
  else none

/-- All raw labels converted through numpy indexing, `none` on any `IndexError`. -/
def checkedLabels {n : ℕ} (k : ℕ) (y : Fin n → ℤ) : Option (Fin n → Fin k) :=
  if h : ∀ i, -(k : ℤ) ≤ y i ∧ y i < k then
    some (fun i => ⟨(if y i < 0 then y i + k else y i).toNat, by
      rcases h i with ⟨h1, h2⟩
      split <;> omega⟩)
  else none

/-- `loss` on raw integer labels, `none` when the true-class indexing fails. -/
def lossChecked {n : ℕ} (k : ℕ) [NeZero k] (y : Fin n → ℤ) (f : Fin (n * k) → ℝ) :
    Option (Fin n → ℝ) :=
  (checkedLabels k y).map fun ly => loss ly f

/-- `grad` on raw integer labels, `none` when the true-class indexing fails. -/
def gradChecked {n : ℕ} (k : ℕ) [NeZero k] (y : Fin n → ℤ) (f : Fin (n * k) → ℝ) :
    Option (Fin (n * k) → ℝ) :=
  (checkedLabels k y).map fun ly => grad ly f

end MultiClassificationMixin

namespace AnchorKookMultiClassificationObjective

/-- `residuals` on raw integer labels, `none` when the indexing fails. -/
def residualsChecked {n : ℕ} (k : ℕ) [NeZero k] (cr : Bool) (y : Fin n → ℤ)
    (f : Fin (n * k) → ℝ) : Option (Fin (n * k) → ℝ) :=
  (MultiClassificationMixin.checkedLabels k y).map fun ly => residuals cr ly f

end AnchorKookMultiClassificationObjective

/-! ## Scalar derivative lemmas -/

theorem hasDerivAt_sigmoid (x : ℝ) :
    HasDerivAt (fun t => 1 / (1 + Real.exp (-t)))
      (1 / (1 + Real.exp (-x)) * (1 - 1 / (1 + Real.exp (-x)))) x := by
  have hne : (1 + Real.exp (-x)) ≠ 0 := by positivity
  have he : HasDerivAt (fun t : ℝ => Real.exp (-t)) (-Real.exp (-x)) x := by
    simpa using ((hasDerivAt_id x).neg).exp
  have hd : HasDerivAt (fun t : ℝ => 1 + Real.exp (-t)) (-Real.exp (-x)) x :=
    he.const_add 1
  have hinv := hd.inv hne
  have hfun : (fun t : ℝ => 1 / (1 + Real.exp (-t)))
      = fun t : ℝ => (1 + Real.exp (-t))⁻¹ := by
    funext t; rw [one_div]
  rw [hfun]
  convert hinv using 1
  field_simp
  ring

theorem hasDerivAt_binary_loss (y x : ℝ) (hy : y = 0 ∨ y = 1) :
    HasDerivAt (fun t => Real.log (1 + Real.exp ((-2 * y + 1) * t)))
      (1 / (1 + Real.exp (-x)) - y) x := by
  rcases hy with rfl | rfl
  · have hfun : (fun t : ℝ => Real.log (1 + Real.exp ((-2 * (0:ℝ) + 1) * t)))
        = fun t : ℝ => Real.log (1 + Real.exp t) := by
      funext t; norm_num
    rw [hfun]
    have hlog := ((Real.hasDerivAt_exp x).const_add 1).log (by positivity)
    convert hlog using 1
    rw [Real.exp_neg]
    have hne := Real.exp_ne_zero x
    field_simp
    ring
  · have hfun : (fun t : ℝ => Real.log (1 + Real.exp ((-2 * (1:ℝ) + 1) * t)))
        = fun t : ℝ => Real.log (1 + Real.exp (-t)) := by
      funext t; norm_num
    rw [hfun]
    have he : HasDerivAt (fun t : ℝ => Real.exp (-t)) (-Real.exp (-x)) x := by
      simpa using ((hasDerivAt_id x).neg).exp
    have hlog := (he.const_add 1).log (by positivity)
    convert hlog using 1
    rw [Real.exp_neg]
    have hne := Real.exp_ne_zero x
    field_simp

theorem liu_deriv_y0 (x : ℝ) :
    HasDerivAt (fun t : ℝ => -t + (-1) * (1 + Real.exp t) * Real.log (1 + Real.exp (-t)))
      (-(Real.exp x * Real.log (1 + Real.exp (-x)))) x := by
  have h1 : HasDerivAt (fun t : ℝ => -t) (-1) x := (hasDerivAt_id x).neg
  have h2 : HasDerivAt (fun t : ℝ => (-1) * (1 + Real.exp t)) (-Real.exp x) x := by
    have := ((Real.hasDerivAt_exp x).const_add 1).const_mul (-1 : ℝ)
    simpa using this
  have he : HasDerivAt (fun t : ℝ => Real.exp (-t)) (-Real.exp (-x)) x := by
    simpa using ((hasDerivAt_id x).neg).exp
  have h3 : HasDerivAt (fun t : ℝ => Real.log (1 + Real.exp (-t)))
      (-Real.exp (-x) / (1 + Real.exp (-x))) x :=
    (he.const_add 1).log (by positivity)
  have h4 := h2.mul h3
  have h5 := h1.add h4
  convert h5 using 1
  rw [Real.exp_neg]
  have hex := Real.exp_ne_zero x
  have hne : (1 : ℝ) + (Real.exp x)⁻¹ ≠ 0 := by positivity
  field_simp
  ring

theorem liu_deriv_y1 (x : ℝ) :
    HasDerivAt (fun t : ℝ => -t + 1 * (1 + Real.exp (-t)) * Real.log (1 + Real.exp t))
      (-(Real.exp (-x) * Real.log (1 + Real.exp x))) x := by
  have h1 : HasDerivAt (fun t : ℝ => -t) (-1) x := (hasDerivAt_id x).neg
  have he : HasDerivAt (fun t : ℝ => Real.exp (-t)) (-Real.exp (-x)) x := by
    simpa using ((hasDerivAt_id x).neg).exp
  have h2 : HasDerivAt (fun t : ℝ => 1 * (1 + Real.exp (-t))) (-Real.exp (-x)) x := by
    simpa using (he.const_add 1).const_mul (1 : ℝ)
  have h3 : HasDerivAt (fun t : ℝ => Real.log (1 + Real.exp t))
      (Real.exp x / (1 + Real.exp x)) x :=
    ((Real.hasDerivAt_exp x).const_add 1).log (by positivity)
  have h4 := h2.mul h3
  have h5 := h1.add h4
  convert h5 using 1
  rw [Real.exp_neg]
  have hex := Real.exp_ne_zero x
  have hne : (1 : ℝ) + Real.exp x ≠ 0 := by positivity
  field_simp
  ring

theorem hasDerivAt_liu_residual_scalar (y x : ℝ) (hy : y = 0 ∨ y = 1) :
    HasDerivAt (fun t => -t + (2 * y - 1) * (1 + Real.exp (-((2 * y - 1) * t)))
        * Real.log (1 + Real.exp ((2 * y - 1) * t)))
      (-(Real.exp (-((2 * y - 1) * x)) * Real.log (1 + Real.exp ((2 * y - 1) * x)))) x := by
  rcases hy with rfl | rfl
  · have hfun : (fun t : ℝ => -t + (2 * (0:ℝ) - 1) * (1 + Real.exp (-((2 * (0:ℝ) - 1) * t)))
          * Real.log (1 + Real.exp ((2 * (0:ℝ) - 1) * t)))
        = fun t : ℝ => -t + (-1) * (1 + Real.exp t) * Real.log (1 + Real.exp (-t)) := by
      funext t; norm_num
    have hval : -(Real.exp (-((2 * (0:ℝ) - 1) * x)) * Real.log (1 + Real.exp ((2 * (0:ℝ) - 1) * x)))
        = -(Real.exp x * Real.log (1 + Real.exp (-x))) := by norm_num
    rw [hfun, hval]
    exact liu_deriv_y0 x
  · have hfun : (fun t : ℝ => -t + (2 * (1:ℝ) - 1) * (1 + Real.exp (-((2 * (1:ℝ) - 1) * t)))
          * Real.log (1 + Real.exp ((2 * (1:ℝ) - 1) * t)))
        = fun t : ℝ => -t + 1 * (1 + Real.exp (-t)) * Real.log (1 + Real.exp t) := by
      funext t; norm_num
    have hval : -(Real.exp (-((2 * (1:ℝ) - 1) * x)) * Real.log (1 + Real.exp ((2 * (1:ℝ) - 1) * x)))
        = -(Real.exp (-x) * Real.log (1 + Real.exp x)) := by norm_num
    rw [hfun, hval]
    exact liu_deriv_y1 x

/-! ## Derivative of the projected-residual penalty -/

namespace AnchorMixin

theorem hasDerivAt_proj_sq_sum {n m : ℕ} (A : Matrix (Fin n) (Fin m) ℝ)
    (r : ℝ → Fin n → ℝ) (r' : Fin n → ℝ) (t : ℝ)
    (h : ∀ l, HasDerivAt (fun s => r s l) (r' l) t) :
    HasDerivAt (fun s => ∑ j, (proj A (r s) j) ^ 2)
      (2 * ∑ j, proj A (r t) j * r' j) t := by
  have hterm : ∀ j : Fin n, HasDerivAt (fun s => (proj A (r s) j) ^ 2)
      ((2 : ℕ) * proj A (r t) j ^ (2 - 1) * proj A r' j) t :=
    fun j => (hasDerivAt_proj A r r' t j h).pow 2
  have hsum := HasDerivAt.sum (fun j (_ : j ∈ Finset.univ) => hterm j)
  convert hsum using 1
  have h1 : ∀ j : Fin n, ((2 : ℕ) : ℝ) * proj A (r t) j ^ (2 - 1) * proj A r' j
      = 2 * (proj A (r t) j * proj A r' j) := by
    intro j
    norm_num
    ring
  rw [Finset.sum_congr rfl fun j _ => h1 j, ← Finset.mul_sum, sum_proj_mul_proj]

end AnchorMixin

/-! ## Gradient exactness, binary variants -/

theorem hasDerivAt_binary_base_sum {n : ℕ} (y f : Fin n → ℝ)
    (hy : ∀ j, y j = 0 ∨ y j = 1) (i : Fin n) :
    HasDerivAt (fun t => ∑ j, ClassificationMixin.loss y (Function.update f i t) j)
      (ClassificationMixin.grad y f i) (f i) := by
  have hterm : ∀ j : Fin n,
      HasDerivAt (fun t => ClassificationMixin.loss y (Function.update f i t) j)
        (if j = i then ClassificationMixin.grad y f i else 0) (f i) := by
    intro j
    by_cases hj : j = i
    · subst hj
      rw [if_pos rfl]
      have hfun : (fun t => ClassificationMixin.loss y (Function.update f j t) j)
          = fun t => Real.log (1 + Real.exp ((-2 * y j + 1) * t)) := by
        funext t
        unfold ClassificationMixin.loss
        rw [Function.update_same]
      rw [hfun]
      exact hasDerivAt_binary_loss (y j) (f j) (hy j)
    · rw [if_neg hj]
      have hfun : (fun t => ClassificationMixin.loss y (Function.update f i t) j)
          = fun _ => ClassificationMixin.loss y f j := by
        funext t
        unfold ClassificationMixin.loss
        rw [Function.update_noteq hj]
      rw [hfun]
      exact hasDerivAt_const _ _
  have hsum := HasDerivAt.sum fun j (_ : j ∈ Finset.univ) => hterm j
  simpa [Finset.sum_ite_eq'] using hsum

theorem hasDerivAt_pred_component {n : ℕ} (f : Fin n → ℝ) (i l : Fin n) :
    HasDerivAt (fun t => ClassificationMixin.predictions (Function.update f i t) l)
      (if l = i then ClassificationMixin.hess f i else 0) (f i) := by
  by_cases hl : l = i
  · subst hl
    rw [if_pos rfl]
    have hfun : (fun t => ClassificationMixin.predictions (Function.update f l t) l)
        = fun t => 1 / (1 + Real.exp (-t)) := by
      funext t
      unfold ClassificationMixin.predictions
      rw [Function.update_same]
    rw [hfun]
    exact hasDerivAt_sigmoid (f l)
  · rw [if_neg hl]
    have hfun : (fun t => ClassificationMixin.predictions (Function.update f i t) l)
        = fun _ => ClassificationMixin.predictions f l := by
      funext t
      unfold ClassificationMixin.predictions
      rw [Function.update_noteq hl]
    rw [hfun]
    exact hasDerivAt_const _ _

theorem hasDerivAt_kook_residuals {n : ℕ} (cr : Bool) (y f : Fin n → ℝ) (i l : Fin n) :
    HasDerivAt
      (fun t => AnchorKookClassificationObjective.residuals cr y (Function.update f i t) l)
      ((if l = i then ClassificationMixin.hess f i else 0)
        - if cr then ClassificationMixin.hess f i / n else 0) (f i) := by
  have hbase : ∀ u : Fin n,
      HasDerivAt (fun t => ClassificationMixin.predictions (Function.update f i t) u - y u)
        (if u = i then ClassificationMixin.hess f i else 0) (f i) :=
    fun u => (hasDerivAt_pred_component f i u).sub_const (y u)
  cases cr
  · simp only [AnchorKookClassificationObjective.residuals, Bool.false_eq_true, if_false]
    simpa using hbase l
  · simp only [AnchorKookClassificationObjective.residuals, if_true, centerMean]
    have hsum : HasDerivAt
        (fun t => (∑ u, (ClassificationMixin.predictions (Function.update f i t) u - y u)) / (n:ℝ))
        ((∑ u, if u = i then ClassificationMixin.hess f i else 0) / (n:ℝ)) (f i) :=
      (HasDerivAt.sum fun u (_ : u ∈ Finset.univ) => hbase u).div_const (n:ℝ)
    have h := (hbase l).sub hsum
    have hval : (∑ u, if u = i then ClassificationMixin.hess f i else 0)
        = ClassificationMixin.hess f i := by
      simp [Finset.sum_ite_eq']
    rw [hval] at h
    exact h

theorem sum_mul_ite_sub {n : ℕ} (P : Fin n → ℝ) (i : Fin n) (h e : ℝ) :
    ∑ j, P j * ((if j = i then h else 0) - e) = P i * h - (∑ j, P j) * e := by
  have h1 : ∀ j : Fin n, P j * ((if j = i then h else 0) - e)
      = (if j = i then P j * h else 0) - P j * e := by
    intro j
    by_cases hj : j = i <;> simp [hj] <;> ring
  rw [Finset.sum_congr rfl fun j _ => h1 j, Finset.sum_sub_distrib, ← Finset.sum_mul,
    Finset.sum_ite_eq' Finset.univ i fun j => P j * h]
  simp

theorem kook_classification_grad_exact {n m : ℕ} (γ : ℝ) (cr : Bool)
    (A : Matrix (Fin n) (Fin m) ℝ) (y f : Fin n → ℝ)
    (hy : ∀ j, y j = 0 ∨ y j = 1) (i : Fin n) :
    HasDerivAt
      (fun t => ∑ j, AnchorKookClassificationObjective.loss γ cr A y (Function.update f i t) j)
      (AnchorKookClassificationObjective.grad γ cr A y f i) (f i) := by
  have hsplit : (fun t => ∑ j, AnchorKookClassificationObjective.loss γ cr A y (Function.update f i t) j)
      = fun t => (∑ j, ClassificationMixin.loss y (Function.update f i t) j)
        + (γ - 1) * ∑ j,
            (AnchorMixin.proj A (AnchorKookClassificationObjective.residuals cr y (Function.update f i t)) j) ^ 2 := by
    funext t
    rw [Finset.mul_sum, ← Finset.sum_add_distrib]
    rfl
  rw [hsplit]
  have hbase := hasDerivAt_binary_base_sum y f hy i
  have hres := fun l => hasDerivAt_kook_residuals cr y f i l
  have hpen := AnchorMixin.hasDerivAt_proj_sq_sum A
    (fun t => AnchorKookClassificationObjective.residuals cr y (Function.update f i t))
    (fun l => (if l = i then ClassificationMixin.hess f i else 0)
      - if cr then ClassificationMixin.hess f i / n else 0)
    (f i) hres
  simp only [Function.update_eq_self] at hpen
  have htotal := hbase.add (hpen.const_mul (γ - 1))
  convert htotal using 1
  unfold AnchorKookClassificationObjective.grad
  cases cr
  · simp only [Bool.false_eq_true, if_false]
    rw [sum_mul_ite_sub (AnchorMixin.proj A (AnchorKookClassificationObjective.residuals false y f))
      i (ClassificationMixin.hess f i) 0]
    unfold ClassificationMixin.hess
    ring
  · simp only [if_true]
    rw [sum_mul_ite_sub (AnchorMixin.proj A (AnchorKookClassificationObjective.residuals true y f))
      i (ClassificationMixin.hess f i) (ClassificationMixin.hess f i / n)]
    unfold centerMean ClassificationMixin.hess
    ring

theorem sum_mul_ite {n : ℕ} (P : Fin n → ℝ) (i : Fin n) (h : ℝ) :
    ∑ j, P j * (if j = i then h else 0) = P i * h := by
  have h0 := sum_mul_ite_sub P i h 0
  simpa using h0

theorem hasDerivAt_liu_residuals {n : ℕ} (y f : Fin n → ℝ)
    (hy : ∀ j, y j = 0 ∨ y j = 1) (i l : Fin n) :
    HasDerivAt
      (fun t => AnchorLiuClassificationObjective.residuals y (Function.update f i t) l)
      (if l = i then
        -(Real.exp (-((2 * y i - 1) * f i)) * Real.log (1 + Real.exp ((2 * y i - 1) * f i)))
       else 0) (f i) := by
  by_cases hl : l = i
  · subst hl
    rw [if_pos rfl]
    have hfun : (fun t => AnchorLiuClassificationObjective.residuals y (Function.update f l t) l)
        = fun t => -t + (2 * y l - 1) * (1 + Real.exp (-((2 * y l - 1) * t)))
            * Real.log (1 + Real.exp ((2 * y l - 1) * t)) := by
      funext t
      unfold AnchorLiuClassificationObjective.residuals
      rw [Function.update_same]
    rw [hfun]
    exact hasDerivAt_liu_residual_scalar (y l) (f l) (hy l)
  · rw [if_neg hl]
    have hfun : (fun t => AnchorLiuClassificationObjective.residuals y (Function.update f i t) l)
        = fun _ => AnchorLiuClassificationObjective.residuals y f l := by
      funext t
      unfold AnchorLiuClassificationObjective.residuals
      rw [Function.update_noteq hl]
    rw [hfun]
    exact hasDerivAt_const _ _

theorem liu_classification_grad_exact {n m : ℕ} (γ : ℝ)
    (A : Matrix (Fin n) (Fin m) ℝ) (y f : Fin n → ℝ)
    (hy : ∀ j, y j = 0 ∨ y j = 1) (i : Fin n) :
    HasDerivAt
      (fun t => ∑ j, AnchorLiuClassificationObjective.loss γ A y (Function.update f i t) j)
      (AnchorLiuClassificationObjective.grad γ A y f i) (f i) := by
  by_cases hγ : γ = 1
  · subst hγ
    unfold AnchorLiuClassificationObjective.loss AnchorLiuClassificationObjective.grad
    rw [if_pos rfl]
    have hfun : (fun t => ∑ j,
        (if (1:ℝ) = 1 then ClassificationMixin.loss y (Function.update f i t)
         else fun j' => ClassificationMixin.loss y (Function.update f i t) j'
          + ((1:ℝ) - 1) * (AnchorMixin.proj A (AnchorLiuClassificationObjective.residuals y (Function.update f i t)) j') ^ 2) j)
        = fun t => ∑ j, ClassificationMixin.loss y (Function.update f i t) j := by
      funext t
      rw [if_pos rfl]
    rw [hfun]
    exact hasDerivAt_binary_base_sum y f hy i
  · unfold AnchorLiuClassificationObjective.loss AnchorLiuClassificationObjective.grad
    rw [if_neg hγ]
    have hsplit : (fun t => ∑ j,
        (if γ = 1 then ClassificationMixin.loss y (Function.update f i t)
         else fun j' => ClassificationMixin.loss y (Function.update f i t) j'
          + (γ - 1) * (AnchorMixin.proj A (AnchorLiuClassificationObjective.residuals y (Function.update f i t)) j') ^ 2) j)
        = fun t => (∑ j, ClassificationMixin.loss y (Function.update f i t) j)
          + (γ - 1) * ∑ j,
              (AnchorMixin.proj A (AnchorLiuClassificationObjective.residuals y (Function.update f i t)) j) ^ 2 := by
      funext t
      rw [if_neg hγ, Finset.mul_sum, ← Finset.sum_add_distrib]
    rw [hsplit]
    have hbase := hasDerivAt_binary_base_sum y f hy i
    have hres := fun l => hasDerivAt_liu_residuals y f hy i l
    have hpen := AnchorMixin.hasDerivAt_proj_sq_sum A
      (fun t => AnchorLiuClassificationObjective.residuals y (Function.update f i t))
      (fun l => if l = i then
          -(Real.exp (-((2 * y i - 1) * f i)) * Real.log (1 + Real.exp ((2 * y i - 1) * f i)))
        else 0)
      (f i) hres
    simp only [Function.update_eq_self] at hpen
    have htotal := hbase.add (hpen.const_mul (γ - 1))
    convert htotal using 1
    rw [sum_mul_ite (AnchorMixin.proj A (AnchorLiuClassificationObjective.residuals y f)) i
      (-(Real.exp (-((2 * y i - 1) * f i)) * Real.log (1 + Real.exp ((2 * y i - 1) * f i))))]
    ring

theorem hasDerivAt_reg_base_sum {n : ℕ} (y f : Fin n → ℝ) (i : Fin n) :
    HasDerivAt (fun t => ∑ j, RegressionMixin.loss y (Function.update f i t) j)
      (RegressionMixin.grad y f i) (f i) := by
  have hterm : ∀ j : Fin n,
      HasDerivAt (fun t => RegressionMixin.loss y (Function.update f i t) j)
        (if j = i then RegressionMixin.grad y f i else 0) (f i) := by
    intro j
    by_cases hj : j = i
    · subst hj
      rw [if_pos rfl]
      have hfun : (fun t => RegressionMixin.loss y (Function.update f j t) j)
          = fun t => (y j - t) ^ 2 := by
        funext t
        unfold RegressionMixin.loss
        rw [Function.update_same]
      rw [hfun]
      have h := ((hasDerivAt_id (f j)).const_sub (y j)).pow 2
      convert h using 1
      unfold RegressionMixin.grad
      norm_num
    · rw [if_neg hj]
      have hfun : (fun t => RegressionMixin.loss y (Function.update f i t) j)
          = fun _ => RegressionMixin.loss y f j := by
        funext t
        unfold RegressionMixin.loss
        rw [Function.update_noteq hj]
      rw [hfun]
      exact hasDerivAt_const _ _
  have hsum := HasDerivAt.sum fun j (_ : j ∈ Finset.univ) => hterm j
  simpa [Finset.sum_ite_eq'] using hsum

theorem hasDerivAt_reg_residuals {n : ℕ} (y f : Fin n → ℝ) (i l : Fin n) :
    HasDerivAt (fun t => AnchorRegressionObjective.residuals y (Function.update f i t) l)
      (if l = i then (-1 : ℝ) else 0) (f i) := by
  by_cases hl : l = i
  · subst hl
    rw [if_pos rfl]
    have hfun : (fun t => AnchorRegressionObjective.residuals y (Function.update f l t) l)
        = fun t => y l - t := by
      funext t
      unfold AnchorRegressionObjective.residuals
      rw [Function.update_same]
    rw [hfun]
    exact (hasDerivAt_id (f l)).const_sub (y l)
  · rw [if_neg hl]
    have hfun : (fun t => AnchorRegressionObjective.residuals y (Function.update f i t) l)
        = fun _ => AnchorRegressionObjective.residuals y f l := by
      funext t
      unfold AnchorRegressionObjective.residuals
      rw [Function.update_noteq hl]
    rw [hfun]
    exact hasDerivAt_const _ _

theorem anchor_regression_grad_exact {n m : ℕ} (γ : ℝ)
    (A : Matrix (Fin n) (Fin m) ℝ) (y f : Fin n → ℝ) (i : Fin n) :
    HasDerivAt
      (fun t => ∑ j, AnchorRegressionObjective.loss γ A y (Function.update f i t) j)
      (AnchorRegressionObjective.grad γ A y f i) (f i) := by
  by_cases hγ : γ = 1
  · subst hγ
    unfold AnchorRegressionObjective.loss AnchorRegressionObjective.grad
    rw [if_pos rfl]
    have hfun : (fun t => ∑ j,
        (if (1:ℝ) = 1 then RegressionMixin.loss y (Function.update f i t)
         else fun j' => (RegressionMixin.loss y (Function.update f i t) j'
          + ((1:ℝ) - 1) * (AnchorMixin.proj A (AnchorRegressionObjective.residuals y (Function.update f i t)) j') ^ 2) / max 1 1) j)
        = fun t => ∑ j, RegressionMixin.loss y (Function.update f i t) j := by
      funext t
      rw [if_pos rfl]
    rw [hfun]
    exact hasDerivAt_reg_base_sum y f i
  · unfold AnchorRegressionObjective.loss AnchorRegressionObjective.grad
    rw [if_neg hγ]
    have hsplit : (fun t => ∑ j,
        (if γ = 1 then RegressionMixin.loss y (Function.update f i t)
         else fun j' => (RegressionMixin.loss y (Function.update f i t) j'
          + (γ - 1) * (AnchorMixin.proj A (AnchorRegressionObjective.residuals y (Function.update f i t)) j') ^ 2) / max γ 1) j)
        = fun t => ((∑ j, RegressionMixin.loss y (Function.update f i t) j)
          + (γ - 1) * ∑ j,
              (AnchorMixin.proj A (AnchorRegressionObjective.residuals y (Function.update f i t)) j) ^ 2) / max γ 1 := by
      funext t
      rw [if_neg hγ, ← Finset.sum_div, Finset.mul_sum, ← Finset.sum_add_distrib]
    rw [hsplit]
    have hbase := hasDerivAt_reg_base_sum y f i
    have hres := fun l => hasDerivAt_reg_residuals y f i l
    have hpen := AnchorMixin.hasDerivAt_proj_sq_sum A
      (fun t => AnchorRegressionObjective.residuals y (Function.update f i t))
      (fun l => if l = i then (-1 : ℝ) else 0)
      (f i) hres
    simp only [Function.update_eq_self] at hpen
    have htotal := (hbase.add (hpen.const_mul (γ - 1))).div_const (max γ 1)
    convert htotal using 1
    rw [sum_mul_ite (AnchorMixin.proj A (AnchorRegressionObjective.residuals y f)) i (-1 : ℝ)]
    ring

theorem hasDerivAt_fourier_component {S : Type} {K n : ℕ}
    (g : AnchorHSICRegressionObjective.RNG S K) (seed : ℕ)
    (y f : Fin n → ℝ) (i l : Fin n) (c : Fin K) :
    HasDerivAt
      (fun t => (AnchorHSICRegressionObjective.fourierResiduals g seed y (Function.update f i t)).1 l c)
      (if l = i then -((AnchorHSICRegressionObjective.fourierResiduals g seed y f).2 i c) else 0)
      (f i) := by
  by_cases hl : l = i
  · subst hl
    rw [if_pos rfl]
    have hfun : (fun t => (AnchorHSICRegressionObjective.fourierResiduals g seed y (Function.update f l t)).1 l c)
        = fun t => Real.cos ((y l - t) * (AnchorHSICRegressionObjective.draws g seed).1 c
            + (AnchorHSICRegressionObjective.draws g seed).2 c) * Real.sqrt (2 / K) := by
      funext t
      show Real.cos ((y l - Function.update f l t l) * _ + _) * _ = _
      rw [Function.update_same]
    rw [hfun]
    have h1 : HasDerivAt (fun t : ℝ => (y l - t) * (AnchorHSICRegressionObjective.draws g seed).1 c
        + (AnchorHSICRegressionObjective.draws g seed).2 c)
        (-(AnchorHSICRegressionObjective.draws g seed).1 c) (f l) := by
      have h := (((hasDerivAt_id (f l)).const_sub (y l)).mul_const
        ((AnchorHSICRegressionObjective.draws g seed).1 c)).add_const
        ((AnchorHSICRegressionObjective.draws g seed).2 c)
      simpa using h
    have h2 := (h1.cos).mul_const (Real.sqrt (2 / K))
    convert h2 using 1
    show -((fun i c => -Real.sin ((y i - f i) * _ + _) * _ * _) l c) = _
    ring
  · rw [if_neg hl]
    have hfun : (fun t => (AnchorHSICRegressionObjective.fourierResiduals g seed y (Function.update f i t)).1 l c)
        = fun _ => (AnchorHSICRegressionObjective.fourierResiduals g seed y f).1 l c := by
      funext t
      show Real.cos ((y l - Function.update f i t l) * _ + _) * _ = _
      rw [Function.update_noteq hl]
      rfl
    rw [hfun]
    exact hasDerivAt_const _ _

theorem hsic_regression_grad_exact {S : Type} {K n m : ℕ}
    (g : AnchorHSICRegressionObjective.RNG S K) (seed : ℕ) (γ : ℝ)
    (A : Matrix (Fin n) (Fin m) ℝ) (y f : Fin n → ℝ) (i : Fin n) :
    HasDerivAt
      (fun t => ∑ j, AnchorHSICRegressionObjective.loss g seed γ A y (Function.update f i t) j)
      (AnchorHSICRegressionObjective.grad g seed γ A y f i) (f i) := by
  by_cases hγ : γ = 1
  · subst hγ
    unfold AnchorHSICRegressionObjective.loss AnchorHSICRegressionObjective.grad
    rw [if_pos rfl]
    have hfun : (fun t => ∑ j,
        (if (1:ℝ) = 1 then RegressionMixin.loss y (Function.update f i t)
         else fun j' => (RegressionMixin.loss y (Function.update f i t) j'
          + ((1:ℝ) - 1) * ∑ c, (AnchorMixin.projCols A (AnchorHSICRegressionObjective.fourierResiduals g seed y (Function.update f i t)).1 j' c) ^ 2) / max 1 1) j)
        = fun t => ∑ j, RegressionMixin.loss y (Function.update f i t) j := by
      funext t
      rw [if_pos rfl]
    rw [hfun]
    exact hasDerivAt_reg_base_sum y f i
  · unfold AnchorHSICRegressionObjective.loss AnchorHSICRegressionObjective.grad
    rw [if_neg hγ]
    have hsplit : (fun t => ∑ j,
        (if γ = 1 then RegressionMixin.loss y (Function.update f i t)
         else fun j' => (RegressionMixin.loss y (Function.update f i t) j'
          + (γ - 1) * ∑ c, (AnchorMixin.projCols A (AnchorHSICRegressionObjective.fourierResiduals g seed y (Function.update f i t)).1 j' c) ^ 2) / max γ 1) j)
        = fun t => ((∑ j, RegressionMixin.loss y (Function.update f i t) j)
          + (γ - 1) * ∑ c, ∑ j,
              (AnchorMixin.proj A (fun l => (AnchorHSICRegressionObjective.fourierResiduals g seed y (Function.update f i t)).1 l c) j) ^ 2) / max γ 1 := by
      funext t
      rw [if_neg hγ, ← Finset.sum_div, Finset.sum_add_distrib]
      congr 2
      rw [← Finset.mul_sum]
      congr 1
      rw [Finset.sum_comm]
      rfl
    rw [hsplit]
    have hbase := hasDerivAt_reg_base_sum y f i
    have hpenc : ∀ c : Fin K, HasDerivAt
        (fun t => ∑ j, (AnchorMixin.proj A
          (fun l => (AnchorHSICRegressionObjective.fourierResiduals g seed y (Function.update f i t)).1 l c) j) ^ 2)
        (2 * (AnchorMixin.proj A
            (fun l => (AnchorHSICRegressionObjective.fourierResiduals g seed y f).1 l c) i
          * -((AnchorHSICRegressionObjective.fourierResiduals g seed y f).2 i c))) (f i) := by
      intro c
      have h := AnchorMixin.hasDerivAt_proj_sq_sum A
        (fun t l => (AnchorHSICRegressionObjective.fourierResiduals g seed y (Function.update f i t)).1 l c)
        (fun l => if l = i then -((AnchorHSICRegressionObjective.fourierResiduals g seed y f).2 i c) else 0)
        (f i) (fun l => hasDerivAt_fourier_component g seed y f i l c)
      simp only [Function.update_eq_self] at h
      rw [sum_mul_ite (AnchorMixin.proj A
        (fun l => (AnchorHSICRegressionObjective.fourierResiduals g seed y f).1 l c)) i
        (-((AnchorHSICRegressionObjective.fourierResiduals g seed y f).2 i c))] at h
      exact h
    have hpen := HasDerivAt.sum fun c (_ : c ∈ Finset.univ) => hpenc c
    have htotal := (hbase.add (hpen.const_mul (γ - 1))).div_const (max γ 1)
    convert htotal using 1
    unfold AnchorMixin.projCols
    congr 1
    have h1 : ∀ c : Fin K,
        2 * (AnchorMixin.proj A
            (fun l => (AnchorHSICRegressionObjective.fourierResiduals g seed y f).1 l c) i
          * -((AnchorHSICRegressionObjective.fourierResiduals g seed y f).2 i c))
        = -2 * (AnchorMixin.proj A
            (fun l => (AnchorHSICRegressionObjective.fourierResiduals g seed y f).1 l c) i
          * (AnchorHSICRegressionObjective.fourierResiduals g seed y f).2 i c) :=
      fun c => by ring
    rw [Finset.sum_congr rfl fun c _ => h1 c, ← Finset.mul_sum]
    ring

/-! ## Multi-class softmax: shift invariance and row derivatives -/

namespace MultiClassificationMixin

theorem sum_exp_pos {k : ℕ} [NeZero k] (g : Fin k → ℝ) :
    0 < ∑ c, Real.exp (g c) :=
  Finset.sum_pos (fun c _ => Real.exp_pos _)
    ⟨⟨0, Nat.pos_of_ne_zero (NeZero.ne k)⟩, Finset.mem_univ _⟩

/-- Subtracting the row maximum does not change the softmax predictions. -/
theorem predictions_eq {n k : ℕ} [NeZero k] (f : Fin (n * k) → ℝ) (i : Fin n) (c : Fin k) :
    predictions f i c = Real.exp (toMat f i c) / ∑ c', Real.exp (toMat f i c') := by
  unfold predictions shifted
  have h1 : ∀ c' : Fin k, Real.exp (toMat f i c' - rowMax (toMat f i))
      = Real.exp (toMat f i c') * Real.exp (-rowMax (toMat f i)) := by
    intro c'
    rw [sub_eq_add_neg, Real.exp_add]
  rw [h1 c, Finset.sum_congr rfl fun c' _ => h1 c', ← Finset.sum_mul]
  exact mul_div_mul_right _ _ (Real.exp_ne_zero _)

/-- Subtracting the row maximum does not change the per-example loss. -/
theorem loss_eq {n k : ℕ} [NeZero k] (y : Fin n → Fin k) (f : Fin (n * k) → ℝ) (i : Fin n) :
    loss y f i = -(toMat f i (y i)) + Real.log (∑ c, Real.exp (toMat f i c)) := by
  unfold loss shifted
  have h1 : ∀ c' : Fin k, Real.exp (toMat f i c' - rowMax (toMat f i))
      = Real.exp (toMat f i c') / Real.exp (rowMax (toMat f i)) := by
    intro c'
    rw [Real.exp_sub]
  rw [Finset.sum_congr rfl fun c' _ => h1 c', ← Finset.sum_div,
    Real.log_div (ne_of_gt (sum_exp_pos _)) (Real.exp_ne_zero _), Real.log_exp]
  ring

/-- Derivative of one softmax entry of a row in the direction of score `d`. -/
theorem hasDerivAt_softmax_row {k : ℕ} [NeZero k] (gr : Fin k → ℝ) (d c : Fin k) :
    HasDerivAt
      (fun t => Real.exp (Function.update gr d t c) / ∑ c', Real.exp (Function.update gr d t c'))
      ((Real.exp (gr c) / ∑ c', Real.exp (gr c'))
        * ((if c = d then 1 else 0) - Real.exp (gr d) / ∑ c', Real.exp (gr c'))) (gr d) := by
  have hnum : ∀ c' : Fin k, HasDerivAt (fun t => Real.exp (Function.update gr d t c'))
      (if c' = d then Real.exp (gr c') else 0) (gr d) := by
    intro c'
    by_cases hc : c' = d
    · subst hc
      rw [if_pos rfl]
      have hfun : (fun t => Real.exp (Function.update gr c' t c')) = fun t => Real.exp t := by
        funext t; rw [Function.update_same]
      rw [hfun]
      exact Real.hasDerivAt_exp (gr c')
    · rw [if_neg hc]
      have hfun : (fun t => Real.exp (Function.update gr d t c')) = fun _ => Real.exp (gr c') := by
        funext t; rw [Function.update_noteq hc]
      rw [hfun]
      exact hasDerivAt_const _ _
  have hden : HasDerivAt (fun t => ∑ c', Real.exp (Function.update gr d t c'))
      (Real.exp (gr d)) (gr d) := by
    have h := HasDerivAt.sum fun c' (_ : c' ∈ Finset.univ) => hnum c'
    simpa [Finset.sum_ite_eq'] using h
  have hS : (∑ c', Real.exp (gr c')) ≠ 0 := ne_of_gt (sum_exp_pos gr)
  have hS' : (∑ c', Real.exp (Function.update gr d (gr d) c')) ≠ 0 := by
    simp only [Function.update_eq_self]
    exact hS
  have hdiv := (hnum c).div hden hS'
  simp only [Function.update_eq_self] at hdiv
  convert hdiv using 1
  by_cases hc : c = d
  · rw [if_pos hc, if_pos hc]
    field_simp
    ring
  · rw [if_neg hc, if_neg hc]
    field_simp
    ring

/-- Derivative of one row's loss in the direction of score `d`. -/
theorem hasDerivAt_mcloss_row {k : ℕ} [NeZero k] (gr : Fin k → ℝ) (d yc : Fin k) :
    HasDerivAt
      (fun t => -(Function.update gr d t yc) + Real.log (∑ c, Real.exp (Function.update gr d t c)))
      (Real.exp (gr d) / (∑ c, Real.exp (gr c)) - if yc = d then 1 else 0) (gr d) := by
  have h1 : HasDerivAt (fun t => -(Function.update gr d t yc))
      (-(if yc = d then 1 else 0)) (gr d) := by
    by_cases hc : yc = d
    · subst hc
      rw [if_pos rfl]
      have hfun : (fun t => -(Function.update gr yc t yc)) = fun t : ℝ => -t := by
        funext t; rw [Function.update_same]
      rw [hfun]
      exact (hasDerivAt_id (gr yc)).neg
    · rw [if_neg hc]
      have hfun : (fun t => -(Function.update gr d t yc)) = fun _ => -(gr yc) := by
        funext t; rw [Function.update_noteq hc]
      rw [hfun]
      simpa using hasDerivAt_const (gr d) (-(gr yc))
  have hnum : ∀ c' : Fin k, HasDerivAt (fun t => Real.exp (Function.update gr d t c'))
      (if c' = d then Real.exp (gr c') else 0) (gr d) := by
    intro c'
    by_cases hc : c' = d
    · subst hc
      rw [if_pos rfl]
      have hfun : (fun t => Real.exp (Function.update gr c' t c')) = fun t => Real.exp t := by
        funext t; rw [Function.update_same]
      rw [hfun]
      exact Real.hasDerivAt_exp (gr c')
    · rw [if_neg hc]
      have hfun : (fun t => Real.exp (Function.update gr d t c')) = fun _ => Real.exp (gr c') := by
        funext t; rw [Function.update_noteq hc]
      rw [hfun]
      exact hasDerivAt_const _ _
  have hden : HasDerivAt (fun t => ∑ c', Real.exp (Function.update gr d t c'))
      (Real.exp (gr d)) (gr d) := by
    have h := HasDerivAt.sum fun c' (_ : c' ∈ Finset.univ) => hnum c'
    simpa [Finset.sum_ite_eq'] using h
  have hS' : (∑ c', Real.exp (Function.update gr d (gr d) c')) ≠ 0 := by
    simp only [Function.update_eq_self]
    exact ne_of_gt (sum_exp_pos gr)
  have hlog := hden.log hS'
  simp only [Function.update_eq_self] at hlog
  have h := h1.add hlog
  convert h using 1
  ring

end MultiClassificationMixin

theorem toMat_point {n k : ℕ} (f : Fin (n * k) → ℝ) (q : Fin (n * k)) :
    toMat f (exIdx q) (clsIdx q) = f q := by
  show f (colIdx (exIdx q) (clsIdx q)) = f q
  rw [colIdx_exIdx_clsIdx]

theorem mc_base_grad_exact {n k : ℕ} [NeZero k] (y : Fin n → Fin k)
    (f : Fin (n * k) → ℝ) (q : Fin (n * k)) :
    HasDerivAt (fun t => ∑ i, MultiClassificationMixin.loss y (Function.update f q t) i)
      (MultiClassificationMixin.grad y f q) (f q) := by
  have hterm : ∀ i : Fin n,
      HasDerivAt (fun t => MultiClassificationMixin.loss y (Function.update f q t) i)
        (if i = exIdx q then
          Real.exp (toMat f (exIdx q) (clsIdx q)) / (∑ c, Real.exp (toMat f (exIdx q) c))
            - (if y (exIdx q) = clsIdx q then 1 else 0)
         else 0) (f q) := by
    intro i
    have hfun : (fun t => MultiClassificationMixin.loss y (Function.update f q t) i)
        = fun t => -(toMat (Function.update f q t) i (y i))
            + Real.log (∑ c, Real.exp (toMat (Function.update f q t) i c)) := by
      funext t
      exact MultiClassificationMixin.loss_eq y (Function.update f q t) i
    rw [hfun]
    by_cases hi : i = exIdx q
    · rw [if_pos hi]
      have hfun2 : (fun t => -(toMat (Function.update f q t) i (y i))
          + Real.log (∑ c, Real.exp (toMat (Function.update f q t) i c)))
          = fun t => -(Function.update (toMat f i) (clsIdx q) t (y i))
            + Real.log (∑ c, Real.exp (Function.update (toMat f i) (clsIdx q) t c)) := by
        funext t
        rw [toMat_update, if_pos hi]
      rw [hfun2]
      have h := MultiClassificationMixin.hasDerivAt_mcloss_row (toMat f i) (clsIdx q) (y i)
      have hpt : toMat f i (clsIdx q) = f q := by
        rw [hi]
        exact toMat_point f q
      rw [← hi, ← hpt]
      exact h
    · rw [if_neg hi]
      have hfun2 : (fun t => -(toMat (Function.update f q t) i (y i))
          + Real.log (∑ c, Real.exp (toMat (Function.update f q t) i c)))
          = fun _ => -(toMat f i (y i)) + Real.log (∑ c, Real.exp (toMat f i c)) := by
        funext t
        rw [toMat_update, if_neg hi]
      rw [hfun2]
      exact hasDerivAt_const _ _
  have hsum := HasDerivAt.sum fun i (_ : i ∈ Finset.univ) => hterm i
  have hval : MultiClassificationMixin.grad y f q
      = Real.exp (toMat f (exIdx q) (clsIdx q)) / (∑ c, Real.exp (toMat f (exIdx q) c))
        - (if y (exIdx q) = clsIdx q then 1 else 0) := by
    show MultiClassificationMixin.predictions f (exIdx q) (clsIdx q)
        - (if clsIdx q = y (exIdx q) then 1 else 0) = _
    rw [MultiClassificationMixin.predictions_eq]
    congr 1
    by_cases h : clsIdx q = y (exIdx q)
    · rw [if_pos h, if_pos h.symm]
    · rw [if_neg h, if_neg fun hh => h hh.symm]
  rw [hval]
  simpa [Finset.sum_ite_eq'] using hsum

theorem hasDerivAt_mc_pred_component {n k : ℕ} [NeZero k] (f : Fin (n * k) → ℝ)
    (q : Fin (n * k)) (i : Fin n) (c : Fin k) :
    HasDerivAt (fun t => MultiClassificationMixin.predictions (Function.update f q t) i c)
      (if i = exIdx q then
        MultiClassificationMixin.predictions f (exIdx q) c
          * ((if c = clsIdx q then 1 else 0)
            - MultiClassificationMixin.predictions f (exIdx q) (clsIdx q))
       else 0) (f q) := by
  have hfun : (fun t => MultiClassificationMixin.predictions (Function.update f q t) i c)
      = fun t => Real.exp (toMat (Function.update f q t) i c)
          / ∑ c', Real.exp (toMat (Function.update f q t) i c') := by
    funext t
    exact MultiClassificationMixin.predictions_eq _ i c
  rw [hfun]
  by_cases hi : i = exIdx q
  · rw [if_pos hi]
    have hfun2 : (fun t => Real.exp (toMat (Function.update f q t) i c)
        / ∑ c', Real.exp (toMat (Function.update f q t) i c'))
        = fun t => Real.exp (Function.update (toMat f i) (clsIdx q) t c)
          / ∑ c', Real.exp (Function.update (toMat f i) (clsIdx q) t c') := by
      funext t
      rw [toMat_update, if_pos hi]
    rw [hfun2]
    have h := MultiClassificationMixin.hasDerivAt_softmax_row (toMat f i) (clsIdx q) c
    have hpt : toMat f i (clsIdx q) = f q := by
      rw [hi]
      exact toMat_point f q
    rw [← hi, MultiClassificationMixin.predictions_eq, MultiClassificationMixin.predictions_eq,
      ← hpt]
    exact h
  · rw [if_neg hi]
    have hfun2 : (fun t => Real.exp (toMat (Function.update f q t) i c)
        / ∑ c', Real.exp (toMat (Function.update f q t) i c'))
        = fun _ => Real.exp (toMat f i c) / ∑ c', Real.exp (toMat f i c') := by
      funext t
      rw [toMat_update, if_neg hi]
    rw [hfun2]
    exact hasDerivAt_const _ _

theorem hasDerivAt_resMat {n k : ℕ} [NeZero k] (cr : Bool) (y : Fin n → Fin k)
    (f : Fin (n * k) → ℝ) (q : Fin (n * k)) (i : Fin n) (c : Fin k) :
    HasDerivAt
      (fun t => AnchorKookMultiClassificationObjective.resMat cr y (Function.update f q t) i c)
      ((if i = exIdx q then
          MultiClassificationMixin.predictions f (exIdx q) c
            * ((if c = clsIdx q then 1 else 0)
              - MultiClassificationMixin.predictions f (exIdx q) (clsIdx q)) else 0)
        - (if cr then
            MultiClassificationMixin.predictions f (exIdx q) c
              * ((if c = clsIdx q then 1 else 0)
                - MultiClassificationMixin.predictions f (exIdx q) (clsIdx q)) / n
           else 0)) (f q) := by
  cases cr
  · simp only [AnchorKookMultiClassificationObjective.resMat, Bool.false_eq_true, if_false,
      sub_zero]
    exact (hasDerivAt_mc_pred_component f q i c).sub_const _
  · simp only [AnchorKookMultiClassificationObjective.resMat, if_true]
    have hterm : ∀ l : Fin n, HasDerivAt
        (fun t => MultiClassificationMixin.predictions (Function.update f q t) l c
          - (if c = y l then 1 else 0))
        (if l = exIdx q then
          MultiClassificationMixin.predictions f (exIdx q) c
            * ((if c = clsIdx q then 1 else 0)
              - MultiClassificationMixin.predictions f (exIdx q) (clsIdx q)) else 0) (f q) :=
      fun l => (hasDerivAt_mc_pred_component f q l c).sub_const _
    have hmean : HasDerivAt
        (fun t => (∑ l, (MultiClassificationMixin.predictions (Function.update f q t) l c
          - (if c = y l then 1 else 0))) / n)
        (MultiClassificationMixin.predictions f (exIdx q) c
          * ((if c = clsIdx q then 1 else 0)
            - MultiClassificationMixin.predictions f (exIdx q) (clsIdx q)) / n) (f q) := by
      have h := (HasDerivAt.sum fun l (_ : l ∈ Finset.univ) => hterm l).div_const (n : ℝ)
      simpa [Finset.sum_ite_eq'] using h
    exact (hterm i).sub hmean

theorem sum_center_softmax {k : ℕ} (p B : Fin k → ℝ) (d : Fin k) :
    ∑ c, B c * (p c * ((if c = d then 1 else 0) - p d))
      = p d * (B d - ∑ c, B c * p c) := by
  have h1 : ∀ c : Fin k, B c * (p c * ((if c = d then 1 else 0) - p d))
      = (if c = d then B c * p c else 0) - p d * (B c * p c) := by
    intro c
    by_cases hc : c = d <;> simp [hc] <;> ring
  rw [Finset.sum_congr rfl fun c _ => h1 c, Finset.sum_sub_distrib,
    Finset.sum_ite_eq' Finset.univ d fun c => B c * p c, ← Finset.mul_sum]
  simp only [Finset.mem_univ, if_true]
  ring

theorem kook_mc_grad_exact {n k m : ℕ} [NeZero k] (γ : ℝ) (cr : Bool)
    (A : Matrix (Fin n) (Fin m) ℝ) (y : Fin n → Fin k) (f : Fin (n * k) → ℝ)
    (q : Fin (n * k)) :
    HasDerivAt
      (fun t => ∑ i, AnchorKookMultiClassificationObjective.loss γ cr A y (Function.update f q t) i)
      (AnchorKookMultiClassificationObjective.grad γ cr A y f q) (f q) := by
  have hres_eq : ∀ g : Fin (n * k) → ℝ,
      toMat (AnchorKookMultiClassificationObjective.residuals cr y g)
        = AnchorKookMultiClassificationObjective.resMat cr y g :=
    fun g => toMat_flattenF _
  have hsplit : (fun t => ∑ i,
      AnchorKookMultiClassificationObjective.loss γ cr A y (Function.update f q t) i)
      = fun t => (∑ i, MultiClassificationMixin.loss y (Function.update f q t) i)
        + MultiClassificationMixin.factor k * (γ - 1)
          * ∑ c, ∑ i, (AnchorMixin.proj A
              (fun l => AnchorKookMultiClassificationObjective.resMat cr y (Function.update f q t) l c) i) ^ 2 := by
    funext t
    unfold AnchorKookMultiClassificationObjective.loss
    rw [hres_eq]
    rw [Finset.sum_add_distrib]
    congr 1
    rw [← Finset.mul_sum]
    congr 1
    rw [Finset.sum_comm]
    rfl
  rw [hsplit]
  have hbase := mc_base_grad_exact y f q
  have hpenc : ∀ c : Fin k, HasDerivAt
      (fun t => ∑ i, (AnchorMixin.proj A
        (fun l => AnchorKookMultiClassificationObjective.resMat cr y (Function.update f q t) l c) i) ^ 2)
      (2 * ((AnchorMixin.proj A (fun l => AnchorKookMultiClassificationObjective.resMat cr y f l c) (exIdx q))
          * (MultiClassificationMixin.predictions f (exIdx q) c
            * ((if c = clsIdx q then 1 else 0)
              - MultiClassificationMixin.predictions f (exIdx q) (clsIdx q)))
        - (∑ l, AnchorMixin.proj A (fun l' => AnchorKookMultiClassificationObjective.resMat cr y f l' c) l)
          * (if cr then
              MultiClassificationMixin.predictions f (exIdx q) c
                * ((if c = clsIdx q then 1 else 0)
                  - MultiClassificationMixin.predictions f (exIdx q) (clsIdx q)) / n
             else 0))) (f q) := by
    intro c
    have h := AnchorMixin.hasDerivAt_proj_sq_sum A
      (fun t l => AnchorKookMultiClassificationObjective.resMat cr y (Function.update f q t) l c)
      (fun l => (if l = exIdx q then
          MultiClassificationMixin.predictions f (exIdx q) c
            * ((if c = clsIdx q then 1 else 0)
              - MultiClassificationMixin.predictions f (exIdx q) (clsIdx q)) else 0)
        - (if cr then
            MultiClassificationMixin.predictions f (exIdx q) c
              * ((if c = clsIdx q then 1 else 0)
                - MultiClassificationMixin.predictions f (exIdx q) (clsIdx q)) / n
           else 0))
      (f q) (fun l => hasDerivAt_resMat cr y f q l c)
    simp only [Function.update_eq_self] at h
    rw [sum_mul_ite_sub] at h
    exact h
  have hpen := HasDerivAt.sum fun c (_ : c ∈ Finset.univ) => hpenc c
  have htotal := hbase.add (hpen.const_mul (MultiClassificationMixin.factor k * (γ - 1)))
  convert htotal using 1
  simp only [AnchorKookMultiClassificationObjective.grad, AnchorMixin.projCols, hres_eq,
    flattenF_apply]
  unfold AnchorMixin.projCols
  congr 1
  cases cr
  · simp only [Bool.false_eq_true, if_false, mul_zero, sub_zero]
    rw [← Finset.mul_sum, sum_center_softmax
      (MultiClassificationMixin.predictions f (exIdx q))
      (fun c => AnchorMixin.proj A
        (fun l => AnchorKookMultiClassificationObjective.resMat false y f l c) (exIdx q))
      (clsIdx q)]
    ring
  · simp only [if_true]
    have h1 : ∀ c : Fin k,
        2 * ((AnchorMixin.proj A (fun l => AnchorKookMultiClassificationObjective.resMat true y f l c) (exIdx q))
          * (MultiClassificationMixin.predictions f (exIdx q) c
            * ((if c = clsIdx q then 1 else 0)
              - MultiClassificationMixin.predictions f (exIdx q) (clsIdx q)))
        - (∑ l, AnchorMixin.proj A (fun l' => AnchorKookMultiClassificationObjective.resMat true y f l' c) l)
          * (MultiClassificationMixin.predictions f (exIdx q) c
            * ((if c = clsIdx q then 1 else 0)
              - MultiClassificationMixin.predictions f (exIdx q) (clsIdx q)) / n))
        = 2 * (((AnchorMixin.proj A (fun l => AnchorKookMultiClassificationObjective.resMat true y f l c) (exIdx q))
            - (∑ l, AnchorMixin.proj A (fun l' => AnchorKookMultiClassificationObjective.resMat true y f l' c) l) / n)
          * (MultiClassificationMixin.predictions f (exIdx q) c
            * ((if c = clsIdx q then 1 else 0)
              - MultiClassificationMixin.predictions f (exIdx q) (clsIdx q)))) := by
      intro c
      ring
    rw [Finset.sum_congr rfl fun c _ => h1 c, ← Finset.mul_sum, sum_center_softmax
      (MultiClassificationMixin.predictions f (exIdx q))
      (fun c => (AnchorMixin.proj A
          (fun l => AnchorKookMultiClassificationObjective.resMat true y f l c) (exIdx q))
        - (∑ l, AnchorMixin.proj A
            (fun l' => AnchorKookMultiClassificationObjective.resMat true y f l' c) l) / n)
      (clsIdx q)]
    ring

/-! ## γ = 1 recovers the base families (per-variant lemmas) -/

theorem kook_loss_at_one {n m : ℕ} (cr : Bool) (A : Matrix (Fin n) (Fin m) ℝ)
    (y f : Fin n → ℝ) :
    AnchorKookClassificationObjective.loss 1 cr A y f = ClassificationMixin.loss y f := by
  funext i
  unfold AnchorKookClassificationObjective.loss
  simp

theorem kook_grad_at_one {n m : ℕ} (cr : Bool) (A : Matrix (Fin n) (Fin m) ℝ)
    (y f : Fin n → ℝ) :
    AnchorKookClassificationObjective.grad 1 cr A y f = ClassificationMixin.grad y f := by
  funext i
  unfold AnchorKookClassificationObjective.grad
  simp

theorem kook_mc_loss_at_one {n k m : ℕ} [NeZero k] (cr : Bool)
    (A : Matrix (Fin n) (Fin m) ℝ) (y : Fin n → Fin k) (f : Fin (n * k) → ℝ) :
    AnchorKookMultiClassificationObjective.loss 1 cr A y f
      = MultiClassificationMixin.loss y f := by
  funext i
  unfold AnchorKookMultiClassificationObjective.loss
  simp

theorem kook_mc_grad_at_one {n k m : ℕ} [NeZero k] (cr : Bool)
    (A : Matrix (Fin n) (Fin m) ℝ) (y : Fin n → Fin k) (f : Fin (n * k) → ℝ) :
    AnchorKookMultiClassificationObjective.grad 1 cr A y f
      = MultiClassificationMixin.grad y f := by
  funext q
  simp [AnchorKookMultiClassificationObjective.grad, flattenF_apply]

theorem liu_loss_at_one {n m : ℕ} (A : Matrix (Fin n) (Fin m) ℝ) (y f : Fin n → ℝ) :
    AnchorLiuClassificationObjective.loss 1 A y f = ClassificationMixin.loss y f := by
  unfold AnchorLiuClassificationObjective.loss
  rw [if_pos rfl]

theorem liu_grad_at_one {n m : ℕ} (A : Matrix (Fin n) (Fin m) ℝ) (y f : Fin n → ℝ) :
    AnchorLiuClassificationObjective.grad 1 A y f = ClassificationMixin.grad y f := by
  unfold AnchorLiuClassificationObjective.grad
  rw [if_pos rfl]

theorem reg_loss_at_one {n m : ℕ} (A : Matrix (Fin n) (Fin m) ℝ) (y f : Fin n → ℝ) :
    AnchorRegressionObjective.loss 1 A y f = RegressionMixin.loss y f := by
  unfold AnchorRegressionObjective.loss
  rw [if_pos rfl]

theorem reg_grad_at_one {n m : ℕ} (A : Matrix (Fin n) (Fin m) ℝ) (y f : Fin n → ℝ) :
    AnchorRegressionObjective.grad 1 A y f = RegressionMixin.grad y f := by
  unfold AnchorRegressionObjective.grad
  rw [if_pos rfl]

theorem hsic_loss_at_one {S : Type} {K n m : ℕ} (g : AnchorHSICRegressionObjective.RNG S K)
    (seed : ℕ) (A : Matrix (Fin n) (Fin m) ℝ) (y f : Fin n → ℝ) :
    AnchorHSICRegressionObjective.loss g seed 1 A y f = RegressionMixin.loss y f := by
  unfold AnchorHSICRegressionObjective.loss
  rw [if_pos rfl]

theorem hsic_grad_at_one {S : Type} {K n m : ℕ} (g : AnchorHSICRegressionObjective.RNG S K)
    (seed : ℕ) (A : Matrix (Fin n) (Fin m) ℝ) (y f : Fin n → ℝ) :
    AnchorHSICRegressionObjective.grad g seed 1 A y f = RegressionMixin.grad y f := by
  unfold AnchorHSICRegressionObjective.grad
  rw [if_pos rfl]

/-! ## Hessians are the base families' (per-variant lemmas) -/

theorem kook_hess_formula {n m : ℕ} (γ : ℝ) (cr : Bool) (A : Matrix (Fin n) (Fin m) ℝ)
    (y f : Fin n → ℝ) :
    (AnchorKookClassificationObjective.objective γ cr A y f).2 = ClassificationMixin.hess f :=
  rfl

theorem liu_hess_formula {n m : ℕ} (γ : ℝ) (A : Matrix (Fin n) (Fin m) ℝ)
    (y f : Fin n → ℝ) :
    (AnchorLiuClassificationObjective.objective γ A y f).2 = ClassificationMixin.hess f :=
  rfl

theorem binary_hess_sigmoid {n : ℕ} (f : Fin n → ℝ) :
    ClassificationMixin.hess f
      = fun i => 1 / (1 + Real.exp (-f i)) * (1 - 1 / (1 + Real.exp (-f i))) :=
  rfl

theorem kook_mc_hess_formula {n k m : ℕ} [NeZero k] (γ : ℝ) (cr : Bool)
    (A : Matrix (Fin n) (Fin m) ℝ) (y : Fin n → Fin k) (f : Fin (n * k) → ℝ) :
    (AnchorKookMultiClassificationObjective.objective γ cr A y f).2
      = MultiClassificationMixin.hess f :=
  rfl

theorem mc_hess_softmax {n k : ℕ} [NeZero k] (f : Fin (n * k) → ℝ) :
    MultiClassificationMixin.hess f
      = fun q => flattenF (MultiClassificationMixin.predictions f) q
          * (1 - flattenF (MultiClassificationMixin.predictions f) q) * ((k : ℝ) / ((k : ℝ) - 1)) := by
  funext q
  unfold MultiClassificationMixin.hess MultiClassificationMixin.factor
  rw [one_div_div]
  ring

theorem reg_hess_formula {n m : ℕ} (γ : ℝ) (A : Matrix (Fin n) (Fin m) ℝ)
    (y f : Fin n → ℝ) :
    (AnchorRegressionObjective.objective γ A y f).2 = RegressionMixin.hess y f :=
  rfl

theorem hsic_hess_formula {S : Type} {K n m : ℕ} (g : AnchorHSICRegressionObjective.RNG S K)
    (seed : ℕ) (γ : ℝ) (A : Matrix (Fin n) (Fin m) ℝ) (y f : Fin n → ℝ) :
    (AnchorHSICRegressionObjective.objective g seed γ A y f).2 = RegressionMixin.hess y f :=
  rfl

/-! ## Prediction range and normalization -/

theorem binary_pred_range {n : ℕ} (f : Fin n → ℝ) (i : Fin n) :
    0 < ClassificationMixin.predictions f i ∧ ClassificationMixin.predictions f i < 1 := by
  unfold ClassificationMixin.predictions
  constructor
  · positivity
  · rw [div_lt_one (by positivity)]
    have := Real.exp_pos (-f i)
    linarith

theorem binary_pred_complement {n : ℕ} (f : Fin n → ℝ) (i : Fin n) :
    ClassificationMixin.predictions f i + (1 - ClassificationMixin.predictions f i) = 1 := by
  ring

theorem mc_pred_row_sum {n k : ℕ} [NeZero k] (f : Fin (n * k) → ℝ) (i : Fin n) :
    ∑ c, MultiClassificationMixin.predictions f i c = 1 := by
  unfold MultiClassificationMixin.predictions
  rw [← Finset.sum_div, div_self (ne_of_gt (MultiClassificationMixin.sum_exp_pos _))]

theorem mc_pred_range {n k : ℕ} [NeZero k] (hk : 2 ≤ k) (f : Fin (n * k) → ℝ)
    (i : Fin n) (c : Fin k) :
    0 < MultiClassificationMixin.predictions f i c
      ∧ MultiClassificationMixin.predictions f i c < 1 := by
  unfold MultiClassificationMixin.predictions
  have hS := MultiClassificationMixin.sum_exp_pos (MultiClassificationMixin.shifted f i)
  constructor
  · exact div_pos (Real.exp_pos _) hS
  · rw [div_lt_one hS]
    have hex : ∃ c' : Fin k, c' ≠ c := by
      by_cases h0 : c.1 = 0
      · exact ⟨⟨1, by omega⟩, by
          intro h
          have hv := congrArg Fin.val h
          simp only at hv
          omega⟩
      · exact ⟨⟨0, by omega⟩, by
          intro h
          have hv := congrArg Fin.val h
          simp only at hv
          omega⟩
    obtain ⟨c', hc'⟩ := hex
    exact Finset.single_lt_sum hc' (Finset.mem_univ c) (Finset.mem_univ c')
      (Real.exp_pos _) fun b _ _ => le_of_lt (Real.exp_pos _)

/-! ## Init-score round trips and domain -/

theorem binary_init_roundtrip {n : ℕ} (y : Fin n → ℝ)
    (hy : ∀ i, y i = 0 ∨ y i = 1) (h0 : ∃ i, y i = 0) (h1 : ∃ i, y i = 1) (i : Fin n) :
    ClassificationMixin.predictions (ClassificationMixin.init_score y) i
      = (∑ l, y l) / n := by
  obtain ⟨i0, hi0⟩ := h0
  obtain ⟨i1, hi1⟩ := h1
  have hn : 0 < n := i0.pos
  have hnR : (0:ℝ) < n := by exact_mod_cast hn
  have hsum_pos : 0 < ∑ l, y l := by
    have hle : ∀ l ∈ Finset.univ, 0 ≤ y l := fun l _ => by
      rcases hy l with h | h <;> simp [h]
    exact Finset.sum_pos' hle ⟨i1, Finset.mem_univ _, by rw [hi1]; norm_num⟩
  have hsum_lt : (∑ l, y l) < n := by
    have h := Finset.sum_lt_sum (f := y) (g := fun _ => (1:ℝ))
      (fun l _ => by rcases hy l with h | h <;> simp [h])
      ⟨i0, Finset.mem_univ _, by rw [hi0]; norm_num⟩
    simpa using h
  have hp0 : 0 < (∑ l, y l) / n := div_pos hsum_pos hnR
  have hp1 : (∑ l, y l) / n < 1 := (div_lt_one hnR).2 hsum_lt
  have hr : 0 < ((∑ l, y l) / n) / (1 - (∑ l, y l) / n) :=
    div_pos hp0 (by linarith)
  unfold ClassificationMixin.predictions ClassificationMixin.init_score
  rw [Real.exp_neg, Real.exp_log hr]
  have hne1 : (1:ℝ) - (∑ l, y l) / n ≠ 0 := by linarith
  have hne2 : (∑ l, y l) / n ≠ 0 := ne_of_gt hp0
  have hne3 : (∑ l, y l) ≠ 0 := ne_of_gt hsum_pos
  field_simp

theorem binary_rate_bounds {n : ℕ} (y : Fin n → ℝ) (hy : ∀ i, y i = 0 ∨ y i = 1)
    (h0 : ∃ i, y i = 0) (h1 : ∃ i, y i = 1) :
    0 < (∑ l, y l) / n ∧ (∑ l, y l) / n < 1 := by
  obtain ⟨i0, hi0⟩ := h0
  obtain ⟨i1, hi1⟩ := h1
  have hnR : (0:ℝ) < n := by exact_mod_cast i0.pos
  have hsum_pos : 0 < ∑ l, y l := by
    have hle : ∀ l ∈ Finset.univ, 0 ≤ y l := fun l _ => by
      rcases hy l with h | h <;> simp [h]
    exact Finset.sum_pos' hle ⟨i1, Finset.mem_univ _, by rw [hi1]; norm_num⟩
  have hsum_lt : (∑ l, y l) < n := by
    have h := Finset.sum_lt_sum (f := y) (g := fun _ => (1:ℝ))
      (fun l _ => by rcases hy l with h | h <;> simp [h])
      ⟨i0, Finset.mem_univ _, by rw [hi0]; norm_num⟩
    simpa using h
  exact ⟨div_pos hsum_pos hnR, (div_lt_one hnR).2 hsum_lt⟩

theorem binary_init_domain {n : ℕ} (y : Fin n → ℝ) (hn : 0 < n) :
    ClassificationMixin.init_score y
        = (fun _ => Real.log (((∑ i, y i) / n) / (1 - (∑ i, y i) / n)))
  ∧ ((∀ i, y i = 1) → 1 - (∑ i, y i) / n = 0)
  ∧ ((∀ i, y i = 0) → ((∑ i, y i) / n) / (1 - (∑ i, y i) / n) = 0)
  ∧ ((∀ i, y i = 0 ∨ y i = 1) →
      ((1 - (∑ i, y i) / n ≠ 0 ∧ 0 < ((∑ i, y i) / n) / (1 - (∑ i, y i) / n))
        ↔ ((∃ i, y i = 0) ∧ (∃ i, y i = 1)))) := by
  have hnR : (0:ℝ) < n := by exact_mod_cast hn
  refine ⟨rfl, ?_, ?_, ?_⟩
  · intro h
    have hsum : (∑ i, y i) = n := by
      rw [Finset.sum_congr rfl fun i _ => h i]
      simp
    rw [hsum, div_self (ne_of_gt hnR)]
    ring
  · intro h
    have hsum : (∑ i, y i) = 0 := Finset.sum_eq_zero fun i _ => h i
    rw [hsum, zero_div, zero_div]
  · intro hy
    constructor
    · rintro ⟨hne, hpos⟩
      constructor
      · by_contra hno
        push_neg at hno
        have hall : ∀ i, y i = 1 := fun i => (hy i).resolve_left (hno i)
        have hsum : (∑ i, y i) = n := by
          rw [Finset.sum_congr rfl fun i _ => hall i]
          simp
        rw [hsum, div_self (ne_of_gt hnR)] at hne
        exact hne (by ring)
      · by_contra hno
        push_neg at hno
        have hall : ∀ i, y i = 0 := fun i => (hy i).resolve_right (hno i)
        have hsum : (∑ i, y i) = 0 := Finset.sum_eq_zero fun i _ => hall i
        rw [hsum, zero_div, zero_div] at hpos
        exact lt_irrefl 0 hpos
    · rintro ⟨h0, h1⟩
      obtain ⟨hp0, hp1⟩ := binary_rate_bounds y hy h0 h1
      exact ⟨by linarith, div_pos hp0 (by linarith)⟩

theorem mc_init_roundtrip (k : ℕ) [NeZero k] (y : List ℕ)
    (hcov : y.toFinset = Finset.range k) :
    ∃ s, MultiClassificationMixin.init_score k y = some s ∧
      ∀ (i : Fin y.length) (c : Fin k),
        MultiClassificationMixin.predictions s i c = (y.count c.1 : ℝ) / y.length := by
  have huniq : MultiClassificationMixin.uniqueVals y = List.range k := by
    unfold MultiClassificationMixin.uniqueVals
    rw [hcov, Finset.sort_range]
  have hguard : (MultiClassificationMixin.uniqueVals y).length = k
      ∧ List.Pairwise (· ≤ ·) (MultiClassificationMixin.uniqueVals y) := by
    constructor
    · rw [huniq, List.length_range]
    · rw [huniq]
      exact List.pairwise_le_range k
  have hcounts : MultiClassificationMixin.uniqueCounts y
      = (List.range k).map fun v => y.count v := by
    unfold MultiClassificationMixin.uniqueCounts
    rw [huniq]
  have htotal : (MultiClassificationMixin.uniqueCounts y).sum = y.length := by
    rw [hcounts]
    have hbridge : ((List.range k).map fun v => y.count v).sum
        = ∑ v in Finset.range k, y.count v := rfl
    rw [hbridge, ← hcov]
    exact List.sum_toFinset_count_eq_length y
  have hgetD : ∀ c : Fin k, (MultiClassificationMixin.uniqueCounts y).getD c.1 0 = y.count c.1 := by
    intro c
    rw [hcounts]
    simp [List.getD, c.2]
  have hcount_pos : ∀ c : Fin k, 0 < y.count c.1 := by
    intro c
    have hmem : c.1 ∈ y.toFinset := by
      rw [hcov]
      exact Finset.mem_range.2 c.2
    rw [List.mem_toFinset] at hmem
    exact List.count_pos_iff.2 hmem
  have hlen_pos : 0 < y.length := by
    have := hcount_pos ⟨0, Nat.pos_of_ne_zero (NeZero.ne k)⟩
    have hmem : (0:ℕ) ∈ y := by
      rw [← List.count_pos_iff]
      exact this
    exact List.length_pos.2 (List.ne_nil_of_mem hmem)
  unfold MultiClassificationMixin.init_score
  rw [if_pos hguard]
  refine ⟨_, rfl, ?_⟩
  intro i c
  have hlenR : (0:ℝ) < y.length := by exact_mod_cast hlen_pos
  have hentry : ∀ (i' : Fin y.length) (c' : Fin k),
      toMat (n := y.length) (k := k) (fun q => Real.log
        (((MultiClassificationMixin.uniqueCounts y).getD (clsIdx q).1 0 : ℝ)
          / ((MultiClassificationMixin.uniqueCounts y).sum : ℝ))) i' c'
      = Real.log ((y.count c'.1 : ℝ) / y.length) := by
    intro i' c'
    simp only [toMat]
    rw [clsIdx_colIdx, hgetD, htotal]
  rw [MultiClassificationMixin.predictions_eq]
  rw [hentry i c, Finset.sum_congr rfl fun c' _ => by rw [hentry i c']]
  have hexp : ∀ c' : Fin k, Real.exp (Real.log ((y.count c'.1 : ℝ) / y.length))
      = (y.count c'.1 : ℝ) / y.length := by
    intro c'
    refine Real.exp_log ?_
    have := hcount_pos c'
    have hcR : (0:ℝ) < (y.count c'.1 : ℝ) := by exact_mod_cast this
    exact div_pos hcR hlenR
  rw [hexp c, Finset.sum_congr rfl fun c' _ => hexp c']
  have hsum1 : (∑ c' : Fin k, (y.count c'.1 : ℝ) / y.length) = 1 := by
    rw [← Finset.sum_div]
    have : (∑ c' : Fin k, (y.count c'.1 : ℝ)) = (y.length : ℝ) := by
      have h1 : (∑ c' : Fin k, (y.count c'.1 : ℝ))
          = ((∑ c' : Fin k, y.count c'.1 : ℕ) : ℝ) := by
        push_cast
        rfl
      rw [h1]
      have h2 : (∑ c' : Fin k, y.count c'.1) = ∑ v in Finset.range k, y.count v :=
        Fin.sum_univ_eq_sum_range (fun v => y.count v) k
      rw [h2, ← hcov]
      exact_mod_cast List.sum_toFinset_count_eq_length y
    rw [this, div_self (ne_of_gt hlenR)]
  rw [hsum1, div_one]

/-! ## Multi-class `init_score` assertion behaviour -/

theorem mc_init_none_iff (k : ℕ) (y : List ℕ) :
    MultiClassificationMixin.init_score k y = none ↔ y.toFinset.card ≠ k := by
  unfold MultiClassificationMixin.init_score
  have hsorted : List.Pairwise (· ≤ ·) (MultiClassificationMixin.uniqueVals y) :=
    Finset.sort_sorted (· ≤ ·) y.toFinset
  have hlen : (MultiClassificationMixin.uniqueVals y).length = y.toFinset.card :=
    Finset.length_sort (· ≤ ·)
  by_cases h : y.toFinset.card = k
  · rw [if_pos ⟨by rw [hlen, h], hsorted⟩]
    simp [h]
  · have hng : ¬((MultiClassificationMixin.uniqueVals y).length = k
        ∧ List.Pairwise (· ≤ ·) (MultiClassificationMixin.uniqueVals y)) := by
      rintro ⟨h1, -⟩
      exact h (by rw [← hlen, h1])
    rw [if_neg hng]
    simp [h]

theorem mc_init_none_iff_range (k : ℕ) (y : List ℕ) (hrange : ∀ v ∈ y, v < k) :
    MultiClassificationMixin.init_score k y = none ↔ y.toFinset ≠ Finset.range k := by
  have hsub : y.toFinset ⊆ Finset.range k := by
    intro v hv
    rw [List.mem_toFinset] at hv
    exact Finset.mem_range.2 (hrange v hv)
  have hiff : y.toFinset.card = k ↔ y.toFinset = Finset.range k := by
    constructor
    · intro hc
      apply Finset.eq_of_subset_of_card_le hsub
      rw [hc, Finset.card_range]
    · intro he
      rw [he, Finset.card_range]
  rw [mc_init_none_iff]
  exact not_congr hiff

theorem mc_init_some_with_gap :
    (MultiClassificationMixin.init_score 2 [0, 2]).isSome = true := by
  unfold MultiClassificationMixin.init_score
  rw [if_pos ?_]
  · rfl
  · constructor
    · have hlen : (MultiClassificationMixin.uniqueVals [0, 2]).length
          = ([0, 2] : List ℕ).toFinset.card := Finset.length_sort (· ≤ ·)
      rw [hlen]
      decide
    · exact Finset.sort_sorted (· ≤ ·) _

/-! ## Checked label indexing -/

theorem checkedLabels_isSome_of_range {n k : ℕ} (y : Fin n → ℤ)
    (h : ∀ i, 0 ≤ y i ∧ y i < k) :
    (MultiClassificationMixin.checkedLabels (n := n) k y).isSome = true := by
  unfold MultiClassificationMixin.checkedLabels
  rw [dif_pos fun i => ⟨by have := (h i).1; omega, (h i).2⟩]
  rfl

theorem checkedLabels_none_iff {n k : ℕ} (y : Fin n → ℤ) :
    MultiClassificationMixin.checkedLabels (n := n) k y = none
      ↔ ∃ i, y i < -(k : ℤ) ∨ (k : ℤ) ≤ y i := by
  unfold MultiClassificationMixin.checkedLabels
  constructor
  · intro hnone
    by_contra hno
    push_neg at hno
    have hall : ∀ i, -(k : ℤ) ≤ y i ∧ y i < k := by
      intro i
      have h1 := (hno i).1
      have h2 := (hno i).2
      exact ⟨by omega, by omega⟩
    rw [dif_pos hall] at hnone
    exact Option.some_ne_none _ hnone
  · rintro ⟨i, hi⟩
    have hng : ¬ ∀ i, -(k : ℤ) ≤ y i ∧ y i < k := by
      intro hall
      rcases hi with h | h
      · have := (hall i).1
        omega
      · have := (hall i).2
        omega
    rw [dif_neg hng]

theorem lossChecked_isSome_of_range {n k : ℕ} [NeZero k] (y : Fin n → ℤ)
    (f : Fin (n * k) → ℝ) (h : ∀ i, 0 ≤ y i ∧ y i < k) :
    (MultiClassificationMixin.lossChecked k y f).isSome = true := by
  have hs := checkedLabels_isSome_of_range y h
  obtain ⟨ly, hly⟩ := Option.isSome_iff_exists.1 hs
  unfold MultiClassificationMixin.lossChecked
  rw [hly]
  rfl

theorem gradChecked_isSome_of_range {n k : ℕ} [NeZero k] (y : Fin n → ℤ)
    (f : Fin (n * k) → ℝ) (h : ∀ i, 0 ≤ y i ∧ y i < k) :
    (MultiClassificationMixin.gradChecked k y f).isSome = true := by
  have hs := checkedLabels_isSome_of_range y h
  obtain ⟨ly, hly⟩ := Option.isSome_iff_exists.1 hs
  unfold MultiClassificationMixin.gradChecked
  rw [hly]
  rfl

theorem residualsChecked_isSome_of_range {n k : ℕ} [NeZero k] (cr : Bool) (y : Fin n → ℤ)
    (f : Fin (n * k) → ℝ) (h : ∀ i, 0 ≤ y i ∧ y i < k) :
    (AnchorKookMultiClassificationObjective.residualsChecked k cr y f).isSome = true := by
  have hs := checkedLabels_isSome_of_range y h
  obtain ⟨ly, hly⟩ := Option.isSome_iff_exists.1 hs
  unfold AnchorKookMultiClassificationObjective.residualsChecked
  rw [hly]
  rfl

theorem lossChecked_negative_label_in_bounds :
    (MultiClassificationMixin.lossChecked (n := 1) 2 (fun _ => (-1 : ℤ))
      (fun _ => (0 : ℝ))).isSome = true := by
  unfold MultiClassificationMixin.lossChecked MultiClassificationMixin.checkedLabels
  rw [dif_pos (by decide)]
  rfl

/-! ## Degenerate single-class softmax -/

theorem mc_pred_one_class :
    MultiClassificationMixin.predictions (n := 1) (k := 1) (fun _ => 0) 0 0 = 1 := by
  rw [MultiClassificationMixin.predictions_eq]
  simp [toMat, Real.exp_zero]

/-! ## Fourier feature map facts -/

theorem fourier_derivative_exact {S : Type} {K n : ℕ}
    (g : AnchorHSICRegressionObjective.RNG S K) (seed : ℕ)
    (y f : Fin n → ℝ) (i : Fin n) (c : Fin K) :
    HasDerivAt (fun r => Real.cos (r * (AnchorHSICRegressionObjective.draws g seed).1 c
        + (AnchorHSICRegressionObjective.draws g seed).2 c) * Real.sqrt (2 / K))
      ((AnchorHSICRegressionObjective.fourierResiduals g seed y f).2 i c) (y i - f i) := by
  have h1 : HasDerivAt (fun r : ℝ => r * (AnchorHSICRegressionObjective.draws g seed).1 c
      + (AnchorHSICRegressionObjective.draws g seed).2 c)
      ((AnchorHSICRegressionObjective.draws g seed).1 c) (y i - f i) := by
    simpa using ((hasDerivAt_id (y i - f i)).mul_const
      ((AnchorHSICRegressionObjective.draws g seed).1 c)).add_const
      ((AnchorHSICRegressionObjective.draws g seed).2 c)
  have h2 := (h1.cos).mul_const (Real.sqrt (2 / K))
  convert h2 using 1

theorem fourier_offset_range {S : Type} {K : ℕ}
    (g : AnchorHSICRegressionObjective.RNG S K) (seed : ℕ) (c : Fin K)
    (hu : 0 ≤ (g.uniform (g.normal (g.newRng seed)).2).1 c
      ∧ (g.uniform (g.normal (g.newRng seed)).2).1 c < 1) :
    0 ≤ (AnchorHSICRegressionObjective.draws g seed).2 c
      ∧ (AnchorHSICRegressionObjective.draws g seed).2 c < 2 * Real.pi := by
  have hpi : (0:ℝ) < 2 * Real.pi := by positivity
  constructor
  · exact mul_nonneg hu.1 (le_of_lt hpi)
  · have h := mul_lt_mul_of_pos_right hu.2 hpi
    rw [one_mul] at h
    exact h

/-! ## Concrete fixtures used by the witnesses -/

def wA : Matrix (Fin 1) (Fin 1) ℝ := fun _ _ => 1

def wy : Fin 1 → ℝ := fun _ => 0

def wf : Fin 1 → ℝ := fun _ => 0

def wyb : Fin 2 → ℝ := fun i => if i = 0 then 0 else 1

def wyk : Fin 1 → Fin 2 := fun _ => 0

def wfk : Fin (1 * 2) → ℝ := fun _ => 0

def wrng : AnchorHSICRegressionObjective.RNG Unit 1 :=
  ⟨fun _ => (), fun _ => (fun _ => 0, ()), fun _ => (fun _ => 0, ())⟩

/-! ## Claims -/

/-- C1: for each of the five anchor objective variants (Kook classification,
Kook multi-classification, Liu classification, anchor regression, HSIC anchor
regression), with `_proj` the ordinary-least-squares orthogonal projection
onto the anchor's column space, `grad(f, data)` is the exact analytic
gradient of `loss(f, data).sum()` with respect to `f` under the column-major
flattening convention, for every γ, anchor matrix, and `center_residuals`
setting (labels per the data model: binary in `{0,1}`, multi-class in
`{0,…,k-1}`). -/
theorem claim_C1_gradient_exactness :
    (∀ (n m : ℕ) (γ : ℝ) (cr : Bool) (A : Matrix (Fin n) (Fin m) ℝ) (y f : Fin n → ℝ),
      (∀ j, y j = 0 ∨ y j = 1) → ∀ i : Fin n,
      HasDerivAt (fun t => ∑ j, AnchorKookClassificationObjective.loss γ cr A y
          (Function.update f i t) j)
        (AnchorKookClassificationObjective.grad γ cr A y f i) (f i))
  ∧ (∀ (n k m : ℕ) [NeZero k] (γ : ℝ) (cr : Bool) (A : Matrix (Fin n) (Fin m) ℝ)
      (y : Fin n → Fin k) (f : Fin (n * k) → ℝ) (q : Fin (n * k)),
      HasDerivAt (fun t => ∑ i, AnchorKookMultiClassificationObjective.loss γ cr A y
          (Function.update f q t) i)
        (AnchorKookMultiClassificationObjective.grad γ cr A y f q) (f q))
  ∧ (∀ (n m : ℕ) (γ : ℝ) (A : Matrix (Fin n) (Fin m) ℝ) (y f : Fin n → ℝ),
      (∀ j, y j = 0 ∨ y j = 1) → ∀ i : Fin n,
      HasDerivAt (fun t => ∑ j, AnchorLiuClassificationObjective.loss γ A y
          (Function.update f i t) j)
        (AnchorLiuClassificationObjective.grad γ A y f i) (f i))
  ∧ (∀ (n m : ℕ) (γ : ℝ) (A : Matrix (Fin n) (Fin m) ℝ) (y f : Fin n → ℝ) (i : Fin n),
      HasDerivAt (fun t => ∑ j, AnchorRegressionObjective.loss γ A y
          (Function.update f i t) j)
        (AnchorRegressionObjective.grad γ A y f i) (f i))
  ∧ (∀ (S : Type) (K n m : ℕ) (g : AnchorHSICRegressionObjective.RNG S K) (seed : ℕ)
      (γ : ℝ) (A : Matrix (Fin n) (Fin m) ℝ) (y f : Fin n → ℝ) (i : Fin n),
      HasDerivAt (fun t => ∑ j, AnchorHSICRegressionObjective.loss g seed γ A y
          (Function.update f i t) j)
        (AnchorHSICRegressionObjective.grad g seed γ A y f i) (f i)) := by
  refine ⟨?_, ?_, ?_, ?_, ?_⟩
  · intro n m γ cr A y f hy i
    exact kook_classification_grad_exact γ cr A y f hy i
  · intro n k m hk γ cr A y f q
    exact kook_mc_grad_exact γ cr A y f q
  · intro n m γ A y f hy i
    exact liu_classification_grad_exact γ A y f hy i
  · intro n m γ A y f i
    exact anchor_regression_grad_exact γ A y f i
  · intro S K n m g seed γ A y f i
    exact hsic_regression_grad_exact g seed γ A y f i

/-- Witness for C1 at concrete fixtures (n = 1, k = 2, γ = 2, centered). -/
theorem claim_C1_gradient_exactness_witness :
    (wy 0 = 0 ∨ wy 0 = 1)
  ∧ HasDerivAt (fun t => ∑ j, AnchorKookClassificationObjective.loss 2 true wA wy
        (Function.update wf 0 t) j)
      (AnchorKookClassificationObjective.grad 2 true wA wy wf 0) (wf 0)
  ∧ HasDerivAt (fun t => ∑ i, AnchorKookMultiClassificationObjective.loss 2 true wA wyk
        (Function.update wfk 0 t) i)
      (AnchorKookMultiClassificationObjective.grad 2 true wA wyk wfk 0) (wfk 0)
  ∧ HasDerivAt (fun t => ∑ j, AnchorLiuClassificationObjective.loss 2 wA wy
        (Function.update wf 0 t) j)
      (AnchorLiuClassificationObjective.grad 2 wA wy wf 0) (wf 0)
  ∧ HasDerivAt (fun t => ∑ j, AnchorRegressionObjective.loss 2 wA wy
        (Function.update wf 0 t) j)
      (AnchorRegressionObjective.grad 2 wA wy wf 0) (wf 0)
  ∧ HasDerivAt (fun t => ∑ j, AnchorHSICRegressionObjective.loss wrng 0 2 wA wy
        (Function.update wf 0 t) j)
      (AnchorHSICRegressionObjective.grad wrng 0 2 wA wy wf 0) (wf 0) := by
  refine ⟨Or.inl rfl, ?_, ?_, ?_, ?_, ?_⟩
  · exact claim_C1_gradient_exactness.1 1 1 2 true wA wy wf (fun j => Or.inl rfl) 0
  · exact claim_C1_gradient_exactness.2.1 1 2 1 2 true wA wyk wfk 0
  · exact claim_C1_gradient_exactness.2.2.1 1 1 2 wA wy wf (fun j => Or.inl rfl) 0
  · exact claim_C1_gradient_exactness.2.2.2.1 1 1 2 wA wy wf 0
  · exact claim_C1_gradient_exactness.2.2.2.2 Unit 1 1 1 wrng 0 2 wA wy wf 0

/-- C2: at γ = 1 each of the five anchor variants' `loss` and `grad` equal
the corresponding base family's `loss` and `grad` exactly, for every score
vector, label vector, and anchor matrix — whether the variant short-circuits
the projection (Liu classification and the two regression variants) or
multiplies the penalty by γ - 1 = 0 (the two Kook variants). -/
theorem claim_C2_gamma_one_recovers_base :
    (∀ (n m : ℕ) (cr : Bool) (A : Matrix (Fin n) (Fin m) ℝ) (y f : Fin n → ℝ),
      AnchorKookClassificationObjective.loss 1 cr A y f = ClassificationMixin.loss y f
      ∧ AnchorKookClassificationObjective.grad 1 cr A y f = ClassificationMixin.grad y f)
  ∧ (∀ (n k m : ℕ) [NeZero k] (cr : Bool) (A : Matrix (Fin n) (Fin m) ℝ)
      (y : Fin n → Fin k) (f : Fin (n * k) → ℝ),
      AnchorKookMultiClassificationObjective.loss 1 cr A y f = MultiClassificationMixin.loss y f
      ∧ AnchorKookMultiClassificationObjective.grad 1 cr A y f = MultiClassificationMixin.grad y f)
  ∧ (∀ (n m : ℕ) (A : Matrix (Fin n) (Fin m) ℝ) (y f : Fin n → ℝ),
      AnchorLiuClassificationObjective.loss 1 A y f = ClassificationMixin.loss y f
      ∧ AnchorLiuClassificationObjective.grad 1 A y f = ClassificationMixin.grad y f)
  ∧ (∀ (n m : ℕ) (A : Matrix (Fin n) (Fin m) ℝ) (y f : Fin n → ℝ),
      AnchorRegressionObjective.loss 1 A y f = RegressionMixin.loss y f
      ∧ AnchorRegressionObjective.grad 1 A y f = RegressionMixin.grad y f)
  ∧ (∀ (S : Type) (K n m : ℕ) (g : AnchorHSICRegressionObjective.RNG S K) (seed : ℕ)
      (A : Matrix (Fin n) (Fin m) ℝ) (y f : Fin n → ℝ),
      AnchorHSICRegressionObjective.loss g seed 1 A y f = RegressionMixin.loss y f
      ∧ AnchorHSICRegressionObjective.grad g seed 1 A y f = RegressionMixin.grad y f) := by
  refine ⟨?_, ?_, ?_, ?_, ?_⟩
  · intro n m cr A y f
    exact ⟨kook_loss_at_one cr A y f, kook_grad_at_one cr A y f⟩
  · intro n k m hk cr A y f
    exact ⟨kook_mc_loss_at_one cr A y f, kook_mc_grad_at_one cr A y f⟩
  · intro n m A y f
    exact ⟨liu_loss_at_one A y f, liu_grad_at_one A y f⟩
  · intro n m A y f
    exact ⟨reg_loss_at_one A y f, reg_grad_at_one A y f⟩
  · intro S K n m g seed A y f
    exact ⟨hsic_loss_at_one g seed A y f, hsic_grad_at_one g seed A y f⟩

/-- Witness for C2 at concrete fixtures. -/
theorem claim_C2_gamma_one_recovers_base_witness :
    (AnchorKookClassificationObjective.loss 1 true wA wy wf = ClassificationMixin.loss wy wf
      ∧ AnchorKookClassificationObjective.grad 1 true wA wy wf = ClassificationMixin.grad wy wf)
  ∧ (AnchorKookMultiClassificationObjective.loss 1 true wA wyk wfk = MultiClassificationMixin.loss wyk wfk
      ∧ AnchorKookMultiClassificationObjective.grad 1 true wA wyk wfk = MultiClassificationMixin.grad wyk wfk)
  ∧ (AnchorLiuClassificationObjective.loss 1 wA wy wf = ClassificationMixin.loss wy wf
      ∧ AnchorLiuClassificationObjective.grad 1 wA wy wf = ClassificationMixin.grad wy wf)
  ∧ (AnchorRegressionObjective.loss 1 wA wy wf = RegressionMixin.loss wy wf
      ∧ AnchorRegressionObjective.grad 1 wA wy wf = RegressionMixin.grad wy wf)
  ∧ (AnchorHSICRegressionObjective.loss wrng 0 1 wA wy wf = RegressionMixin.loss wy wf
      ∧ AnchorHSICRegressionObjective.grad wrng 0 1 wA wy wf = RegressionMixin.grad wy wf) :=
  ⟨claim_C2_gamma_one_recovers_base.1 1 1 true wA wy wf,
   claim_C2_gamma_one_recovers_base.2.1 1 2 1 true wA wyk wfk,
   claim_C2_gamma_one_recovers_base.2.2.1 1 1 wA wy wf,
   claim_C2_gamma_one_recovers_base.2.2.2.1 1 1 wA wy wf,
   claim_C2_gamma_one_recovers_base.2.2.2.2 Unit 1 1 1 wrng 0 wA wy wf⟩

/-- C3: for every anchor variant, γ, anchor matrix, and `center_residuals`
setting, the `hess` component of `objective(f, data)` is the base family's
Hessian diagonal with no anchor-penalty contribution: `σ(f)·(1-σ(f))` for
the binary family and the softmax `p·(1-p)·k/(k-1)` (column-major flattened)
for the k-class family; the regression variants return the modelled base
regression Hessian. -/
theorem claim_C3_hessian_base_only :
    (∀ (n m : ℕ) (γ : ℝ) (cr : Bool) (A : Matrix (Fin n) (Fin m) ℝ) (y f : Fin n → ℝ),
      (AnchorKookClassificationObjective.objective γ cr A y f).2 = ClassificationMixin.hess f
      ∧ ClassificationMixin.hess f
          = fun i => 1 / (1 + Real.exp (-f i)) * (1 - 1 / (1 + Real.exp (-f i))))
  ∧ (∀ (n m : ℕ) (γ : ℝ) (A : Matrix (Fin n) (Fin m) ℝ) (y f : Fin n → ℝ),
      (AnchorLiuClassificationObjective.objective γ A y f).2 = ClassificationMixin.hess f)
  ∧ (∀ (n k m : ℕ) [NeZero k] (γ : ℝ) (cr : Bool) (A : Matrix (Fin n) (Fin m) ℝ)
      (y : Fin n → Fin k) (f : Fin (n * k) → ℝ),
      (AnchorKookMultiClassificationObjective.objective γ cr A y f).2
        = MultiClassificationMixin.hess f
      ∧ MultiClassificationMixin.hess f
          = fun q => flattenF (MultiClassificationMixin.predictions f) q
              * (1 - flattenF (MultiClassificationMixin.predictions f) q)
              * ((k : ℝ) / ((k : ℝ) - 1)))
  ∧ (∀ (n m : ℕ) (γ : ℝ) (A : Matrix (Fin n) (Fin m) ℝ) (y f : Fin n → ℝ),
      (AnchorRegressionObjective.objective γ A y f).2 = RegressionMixin.hess y f)
  ∧ (∀ (S : Type) (K n m : ℕ) (g : AnchorHSICRegressionObjective.RNG S K) (seed : ℕ)
      (γ : ℝ) (A : Matrix (Fin n) (Fin m) ℝ) (y f : Fin n → ℝ),
      (AnchorHSICRegressionObjective.objective g seed γ A y f).2 = RegressionMixin.hess y f) := by
  refine ⟨?_, ?_, ?_, ?_, ?_⟩
  · intro n m γ cr A y f
    exact ⟨kook_hess_formula γ cr A y f, binary_hess_sigmoid f⟩
  · intro n m γ A y f
    exact liu_hess_formula γ A y f
  · intro n k m hk γ cr A y f
    exact ⟨kook_mc_hess_formula γ cr A y f, mc_hess_softmax f⟩
  · intro n m γ A y f
    exact reg_hess_formula γ A y f
  · intro S K n m g seed γ A y f
    exact hsic_hess_formula g seed γ A y f

/-- Witness for C3 at concrete fixtures. -/
theorem claim_C3_hessian_base_only_witness :
    ((AnchorKookClassificationObjective.objective 2 true wA wy wf).2 = ClassificationMixin.hess wf)
  ∧ ((AnchorKookMultiClassificationObjective.objective 2 true wA wyk wfk).2
      = MultiClassificationMixin.hess wfk)
  ∧ ((AnchorLiuClassificationObjective.objective 2 wA wy wf).2 = ClassificationMixin.hess wf)
  ∧ ((AnchorRegressionObjective.objective 2 wA wy wf).2 = RegressionMixin.hess wy wf)
  ∧ ((AnchorHSICRegressionObjective.objective wrng 0 2 wA wy wf).2 = RegressionMixin.hess wy wf) :=
  ⟨(claim_C3_hessian_base_only.1 1 1 2 true wA wy wf).1,
   (claim_C3_hessian_base_only.2.2.1 1 2 1 2 true wA wyk wfk).1,
   claim_C3_hessian_base_only.2.1 1 1 2 wA wy wf,
   claim_C3_hessian_base_only.2.2.2.1 1 1 2 wA wy wf,
   claim_C3_hessian_base_only.2.2.2.2 Unit 1 1 1 wrng 0 2 wA wy wf⟩

/-- C4 counterexample: with `n_classes = 2` and labels `[0, 2]`, the label
set `{0, 2}` differs from `{0, 1}`, yet `init_score` succeeds — the
assertion only compares the number of distinct values against `n_classes`,
so the claimed "fails iff the set is not exactly `{0,…,k-1}`" is false. -/
theorem claim_C4_counterexample :
    ¬ ((MultiClassificationMixin.init_score 2 [0, 2] = none)
      ↔ (([0, 2] : List ℕ).toFinset ≠ Finset.range 2)) := by
  intro h
  have h2 : ([0, 2] : List ℕ).toFinset ≠ Finset.range 2 := by decide
  have h3 := h.2 h2
  have h1 := mc_init_some_with_gap
  rw [h3] at h1
  simp at h1

/-- C4 (amended): `MultiClassificationMixin.init_score k y` fails (returns
`none`) iff the number of distinct values in `y` differs from `n_classes`;
under the data-model precondition that all label values lie in
`{0,…,n_classes-1}`, this is equivalent to the value set not being exactly
`{0,…,n_classes-1}`. -/
theorem claim_C4_assert_characterization :
    (∀ (k : ℕ) (y : List ℕ),
      MultiClassificationMixin.init_score k y = none ↔ y.toFinset.card ≠ k)
  ∧ (∀ (k : ℕ) (y : List ℕ), (∀ v ∈ y, v < k) →
      (MultiClassificationMixin.init_score k y = none
        ↔ y.toFinset ≠ Finset.range k)) :=
  ⟨mc_init_none_iff, mc_init_none_iff_range⟩

/-- Witness for C4 at `k = 2`, `y = [0, 1]`. -/
theorem claim_C4_assert_characterization_witness :
    (∀ v ∈ ([0, 1] : List ℕ), v < 2)
  ∧ (MultiClassificationMixin.init_score 2 [0, 1] = none
      ↔ ([0, 1] : List ℕ).toFinset ≠ Finset.range 2) :=
  ⟨by decide, claim_C4_assert_characterization.2 2 [0, 1] (by decide)⟩

/-- C5: `_fourier_residuals` builds a fresh generator from
`random_fourier_features_seed` on every call, so two invocations with the
same scores, labels, seed and `n_components` produce identical features and
derivatives regardless of (and without advancing) any ambient generator
state, and `loss` and `grad` computed from the same `(f, data)` use the same
random weights and offsets (both equal the pure `fourierResiduals`). -/
theorem claim_C5_reseeded_generator :
    ∀ (S T : Type) (K n : ℕ) (g : AnchorHSICRegressionObjective.RNG S K) (seed : ℕ)
      (y f : Fin n → ℝ) (amb amb' : T),
      (AnchorHSICRegressionObjective.fourierCall g seed y f amb).1
        = (AnchorHSICRegressionObjective.fourierCall g seed y f amb').1
    ∧ (AnchorHSICRegressionObjective.fourierCall g seed y f
          ((AnchorHSICRegressionObjective.fourierCall g seed y f amb).2)).1
        = (AnchorHSICRegressionObjective.fourierCall g seed y f amb).1
    ∧ (AnchorHSICRegressionObjective.fourierCall g seed y f amb).1
        = AnchorHSICRegressionObjective.fourierResiduals g seed y f :=
  fun _ _ _ _ _ _ _ _ _ _ => ⟨rfl, rfl, rfl⟩

/-- C6: the random Fourier feature map returns, for each example residual
`y i - f i` and drawn (weight, offset) pair, features
`cos(residual·weight + offset)·sqrt(2/n_components)` and residual-derivative
`-sin(residual·weight + offset)·weight·sqrt(2/n_components)` (an
`n × n_components` matrix each); the weights are the generator's normal
draws, the offsets are its uniform draws scaled by 2π (hence in `[0, 2π)`
when the uniforms are in `[0, 1)`), and the returned derivative is the exact
derivative of the feature with respect to the residual. -/
theorem claim_C6_fourier_map_formulas :
    ∀ (S : Type) (K n : ℕ) (g : AnchorHSICRegressionObjective.RNG S K) (seed : ℕ)
      (y f : Fin n → ℝ) (i : Fin n) (c : Fin K),
      (AnchorHSICRegressionObjective.fourierResiduals g seed y f).1 i c
        = Real.cos ((y i - f i) * (AnchorHSICRegressionObjective.draws g seed).1 c
            + (AnchorHSICRegressionObjective.draws g seed).2 c) * Real.sqrt (2 / K)
    ∧ (AnchorHSICRegressionObjective.fourierResiduals g seed y f).2 i c
        = -Real.sin ((y i - f i) * (AnchorHSICRegressionObjective.draws g seed).1 c
            + (AnchorHSICRegressionObjective.draws g seed).2 c)
          * (AnchorHSICRegressionObjective.draws g seed).1 c * Real.sqrt (2 / K)
    ∧ (AnchorHSICRegressionObjective.draws g seed).1 = (g.normal (g.newRng seed)).1
    ∧ (AnchorHSICRegressionObjective.draws g seed).2 c
        = (g.uniform (g.normal (g.newRng seed)).2).1 c * (2 * Real.pi)
    ∧ HasDerivAt (fun r => Real.cos (r * (AnchorHSICRegressionObjective.draws g seed).1 c
          + (AnchorHSICRegressionObjective.draws g seed).2 c) * Real.sqrt (2 / K))
        ((AnchorHSICRegressionObjective.fourierResiduals g seed y f).2 i c) (y i - f i)
    ∧ ((0 ≤ (g.uniform (g.normal (g.newRng seed)).2).1 c
          ∧ (g.uniform (g.normal (g.newRng seed)).2).1 c < 1) →
        0 ≤ (AnchorHSICRegressionObjective.draws g seed).2 c
          ∧ (AnchorHSICRegressionObjective.draws g seed).2 c < 2 * Real.pi) :=
  fun S K n g seed y f i c =>
    ⟨rfl, rfl, rfl, rfl, fourier_derivative_exact g seed y f i c,
     fourier_offset_range g seed c⟩

/-- Witness for C6 at concrete fixtures. -/
theorem claim_C6_fourier_map_formulas_witness :
    (0 ≤ (wrng.uniform (wrng.normal (wrng.newRng 0)).2).1 0
      ∧ (wrng.uniform (wrng.normal (wrng.newRng 0)).2).1 0 < 1)
  ∧ ((AnchorHSICRegressionObjective.fourierResiduals wrng 0 wy wf).1 0 0
      = Real.cos ((wy 0 - wf 0) * (AnchorHSICRegressionObjective.draws wrng 0).1 0
          + (AnchorHSICRegressionObjective.draws wrng 0).2 0) * Real.sqrt (2 / (1:ℕ)))
  ∧ (0 ≤ (AnchorHSICRegressionObjective.draws wrng 0).2 0
      ∧ (AnchorHSICRegressionObjective.draws wrng 0).2 0 < 2 * Real.pi) := by
  have hu : (0:ℝ) ≤ (wrng.uniform (wrng.normal (wrng.newRng 0)).2).1 0
      ∧ (wrng.uniform (wrng.normal (wrng.newRng 0)).2).1 0 < 1 := by
    constructor
    · exact le_refl 0
    · exact one_pos
  exact ⟨hu, (claim_C6_fourier_map_formulas Unit 1 1 wrng 0 wy wf 0 0).1,
    (claim_C6_fourier_map_formulas Unit 1 1 wrng 0 wy wf 0 0).2.2.2.2.2 hu⟩

/-- C7 counterexample: with a single class (`k = 1`) the softmax prediction
is exactly 1, so the claim that every multi-class prediction entry lies
strictly in `(0, 1)` fails at `n = 1`, `k = 1`, `f = 0`. -/
theorem claim_C7_counterexample :
    ¬ (0 < MultiClassificationMixin.predictions (n := 1) (k := 1) (fun _ => 0) 0 0
      ∧ MultiClassificationMixin.predictions (n := 1) (k := 1) (fun _ => 0) 0 0 < 1) := by
  rw [mc_pred_one_class]
  rintro ⟨-, h⟩
  exact lt_irrefl 1 h

/-- C7 (amended): the binary family's predictions lie strictly in `(0, 1)`
with `p + (1-p) = 1`; the multi-class family's prediction rows always sum
to 1, and for `k ≥ 2` classes every entry lies strictly in `(0, 1)` (at
`k = 1` the single entry equals 1). -/
theorem claim_C7_predictions_range :
    (∀ (n : ℕ) (f : Fin n → ℝ) (i : Fin n),
      0 < ClassificationMixin.predictions f i
      ∧ ClassificationMixin.predictions f i < 1
      ∧ ClassificationMixin.predictions f i + (1 - ClassificationMixin.predictions f i) = 1)
  ∧ (∀ (n k : ℕ) [NeZero k] (f : Fin (n * k) → ℝ) (i : Fin n),
      ∑ c, MultiClassificationMixin.predictions f i c = 1)
  ∧ (∀ (n k : ℕ) [NeZero k], 2 ≤ k → ∀ (f : Fin (n * k) → ℝ) (i : Fin n) (c : Fin k),
      0 < MultiClassificationMixin.predictions f i c
      ∧ MultiClassificationMixin.predictions f i c < 1) := by
  refine ⟨?_, ?_, ?_⟩
  · intro n f i
    exact ⟨(binary_pred_range f i).1, (binary_pred_range f i).2, binary_pred_complement f i⟩
  · intro n k hk f i
    exact mc_pred_row_sum f i
  · intro n k hk h2 f i c
    exact mc_pred_range h2 f i c

/-- Witness for C7 at `k = 2`. -/
theorem claim_C7_predictions_range_witness :
    (2 ≤ 2)
  ∧ (0 < MultiClassificationMixin.predictions wfk 0 0
      ∧ MultiClassificationMixin.predictions wfk 0 0 < 1) :=
  ⟨le_refl 2, claim_C7_predictions_range.2.2 1 2 (le_refl 2) wfk 0 0⟩

/-- C8: feeding the initial score back through `predictions` reproduces the
empirical class frequencies exactly: for binary labels containing both
classes the result is the constant empirical positive rate `mean(y)`; for
multi-class labels covering `{0,…,k-1}`, every row equals the vector of
empirical class frequencies. -/
theorem claim_C8_init_score_roundtrip :
    (∀ (n : ℕ) (y : Fin n → ℝ),
      (∀ i, y i = 0 ∨ y i = 1) → (∃ i, y i = 0) → (∃ i, y i = 1) →
      ∀ i, ClassificationMixin.predictions (ClassificationMixin.init_score y) i
        = (∑ l, y l) / n)
  ∧ (∀ (k : ℕ) [NeZero k] (y : List ℕ), y.toFinset = Finset.range k →
      ∃ s, MultiClassificationMixin.init_score k y = some s ∧
        ∀ (i : Fin y.length) (c : Fin k),
          MultiClassificationMixin.predictions s i c = (y.count c.1 : ℝ) / y.length) := by
  constructor
  · intro n y hy h0 h1 i
    exact binary_init_roundtrip y hy h0 h1 i
  · intro k hk y hcov
    exact mc_init_roundtrip k y hcov

/-- Witness for C8 at binary labels `[0, 1]` and multi-class labels `[0, 1]`
with `k = 2`. -/
theorem claim_C8_init_score_roundtrip_witness :
    ((∃ i, wyb i = 0) ∧ (∃ i, wyb i = 1))
  ∧ (∀ i, ClassificationMixin.predictions (ClassificationMixin.init_score wyb) i
      = (∑ l, wyb l) / (2 : ℕ))
  ∧ (([0, 1] : List ℕ).toFinset = Finset.range 2)
  ∧ (∃ s, MultiClassificationMixin.init_score 2 [0, 1] = some s ∧
      ∀ (i : Fin ([0, 1] : List ℕ).length) (c : Fin 2),
        MultiClassificationMixin.predictions s i c
          = (([0, 1] : List ℕ).count c.1 : ℝ) / ([0, 1] : List ℕ).length) := by
  have hy : ∀ i, wyb i = 0 ∨ wyb i = 1 := by
    intro i
    by_cases h : i = 0
    · left
      simp [wyb, h]
    · right
      simp [wyb, h]
  have h0 : ∃ i, wyb i = 0 := ⟨0, by simp [wyb]⟩
  have h1 : ∃ i, wyb i = 1 := ⟨1, by simp [wyb]⟩
  refine ⟨⟨h0, h1⟩, ?_, by decide, ?_⟩
  · exact claim_C8_init_score_roundtrip.1 2 wyb hy h0 h1
  · exact claim_C8_init_score_roundtrip.2 2 [0, 1] (by decide)

/-- C9: the binary `init_score` is the constant `log(p/(1-p))` with
`p = mean(y)`; if every label is 1 the denominator `1 - p` is zero (a
division by zero), if every label is 0 the argument of the logarithm is
zero, and (for 0/1 labels) the computation stays inside the domains of the
division and the logarithm iff both classes occur — so the returned baseline
is a well-defined finite number only when `y` contains at least one 0 and at
least one 1. -/
theorem claim_C9_init_score_domain :
    ∀ (n : ℕ) (y : Fin n → ℝ), 0 < n →
      ClassificationMixin.init_score y
          = (fun _ => Real.log (((∑ i, y i) / n) / (1 - (∑ i, y i) / n)))
      ∧ ((∀ i, y i = 1) → 1 - (∑ i, y i) / n = 0)
      ∧ ((∀ i, y i = 0) → ((∑ i, y i) / n) / (1 - (∑ i, y i) / n) = 0)
      ∧ ((∀ i, y i = 0 ∨ y i = 1) →
          ((1 - (∑ i, y i) / n ≠ 0 ∧ 0 < ((∑ i, y i) / n) / (1 - (∑ i, y i) / n))
            ↔ ((∃ i, y i = 0) ∧ (∃ i, y i = 1)))) :=
  fun n y hn => binary_init_domain y hn

/-- Witness for C9 at `y = [0, 1]`. -/
theorem claim_C9_init_score_domain_witness :
    (0 < 2)
  ∧ (ClassificationMixin.init_score wyb
      = (fun _ => Real.log (((∑ i, wyb i) / (2 : ℕ)) / (1 - (∑ i, wyb i) / (2 : ℕ))))
    ∧ ((∀ i, wyb i = 1) → 1 - (∑ i, wyb i) / (2 : ℕ) = 0)
    ∧ ((∀ i, wyb i = 0) → ((∑ i, wyb i) / (2 : ℕ)) / (1 - (∑ i, wyb i) / (2 : ℕ)) = 0)
    ∧ ((∀ i, wyb i = 0 ∨ wyb i = 1) →
        ((1 - (∑ i, wyb i) / (2 : ℕ) ≠ 0
            ∧ 0 < ((∑ i, wyb i) / (2 : ℕ)) / (1 - (∑ i, wyb i) / (2 : ℕ)))
          ↔ ((∃ i, wyb i = 0) ∧ (∃ i, wyb i = 1))))) :=
  ⟨by norm_num, claim_C9_init_score_domain 2 wyb (by norm_num)⟩

/-- C10 counterexample: the label `-1` lies outside `{0, …, k-1}` yet numpy
integer indexing accepts it (negative wrap-around), so the multi-class loss
computation succeeds — refuting the claim that any label outside
`{0,…,k-1}` makes the true-class indexing go out of bounds. -/
theorem claim_C10_counterexample :
    (MultiClassificationMixin.lossChecked (n := 1) 2 (fun _ => (-1 : ℤ))
        (fun _ => (0 : ℝ))).isSome = true
  ∧ ¬ (0 ≤ (-1 : ℤ)) :=
  ⟨lossChecked_negative_label_in_bounds, by decide⟩

/-- C10 (amended): under the precondition that labels are integers in
`{0,…,n_classes-1}`, every array index used by the multi-class `loss`,
`grad`, and the Kook multi-classification `residuals` is accepted, so these
functions are total; the indexing is rejected (an `IndexError`) exactly when
some label is `< -n_classes` or `≥ n_classes` — labels in `[-n_classes, -1]`
wrap around and stay in bounds. -/
theorem claim_C10_index_bounds :
    (∀ (n k : ℕ) [NeZero k] (y : Fin n → ℤ) (f : Fin (n * k) → ℝ),
      (∀ i, 0 ≤ y i ∧ y i < k) →
        (MultiClassificationMixin.lossChecked k y f).isSome = true
        ∧ (MultiClassificationMixin.gradChecked k y f).isSome = true
        ∧ ∀ cr, (AnchorKookMultiClassificationObjective.residualsChecked k cr y f).isSome
            = true)
  ∧ (∀ (n k : ℕ) (y : Fin n → ℤ),
      MultiClassificationMixin.checkedLabels (n := n) k y = none
        ↔ ∃ i, y i < -(k : ℤ) ∨ (k : ℤ) ≤ y i) := by
  constructor
  · intro n k hk y f h
    exact ⟨lossChecked_isSome_of_range y f h, gradChecked_isSome_of_range y f h,
      fun cr => residualsChecked_isSome_of_range cr y f h⟩
  · intro n k y
    exact checkedLabels_none_iff y

/-- Witness for C10 at `n = 1`, `k = 2`, label 0. -/
theorem claim_C10_index_bounds_witness :
    (∀ i : Fin 1, 0 ≤ (fun _ : Fin 1 => (0 : ℤ)) i ∧ (fun _ : Fin 1 => (0 : ℤ)) i < 2)
  ∧ ((MultiClassificationMixin.lossChecked 2 (fun _ : Fin 1 => (0 : ℤ)) wfk).isSome = true
    ∧ (MultiClassificationMixin.gradChecked 2 (fun _ : Fin 1 => (0 : ℤ)) wfk).isSome = true
    ∧ ∀ cr, (AnchorKookMultiClassificationObjective.residualsChecked 2 cr
        (fun _ : Fin 1 => (0 : ℤ)) wfk).isSome = true) :=
  ⟨by decide, claim_C10_index_bounds.1 1 2 (fun _ => 0) wfk (by decide)⟩
